import Mathlib

set_option maxRecDepth 100000

-- Verification development for the chip-8xx toolchain (assembler + emulator).
-- All definitions are shallow embeddings of the C++ sources:
--   src/include/chip8.hxx, src/emulator/decoder.cxx, src/emulator/emulator.cxx,
--   src/assembler/lexer.cxx, src/assembler/parser.cxx.
-- Machine integers are modelled as Nat with explicit `% 2^w` at the points
-- where the C++ code truncates (uint8_t, uint16_t assignments and overflow).
-- The double-precision timer accumulators are modelled as rationals.

namespace Chip8

-- Constants from src/include/chip8.hxx.
def C8_SCREEN_WIDTH : Nat := 64
def C8_SCREEN_HEIGHT : Nat := 32
def C8_TIMER_FREQ : Nat := 60
def C8_KEY_NONE : Nat := 16
def C8_REG_CNT : Nat := 16
def C8_VX_OFFSET : Nat := 8
def C8_VY_OFFSET : Nat := 4
def C8_INSTR_LEN : Nat := 2
def C8_STACK_SIZE : Nat := 16
def C8_RAM_SIZE : Nat := 4096
def C8_PROG_START : Nat := 0x200
def C8_FLAG_REG : Nat := 0xF

-- FONT_SPRITES from src/include/chip8.hxx (16 sprites of 5 bytes each).
def FONT_SPRITES : List (List Nat) := [
  [0xF0, 0x90, 0x90, 0x90, 0xF0],
  [0x20, 0x60, 0x20, 0x20, 0x70],
  [0xF0, 0x10, 0xF0, 0x80, 0xF0],
  [0xF0, 0x10, 0xF0, 0x10, 0xF0],
  [0x90, 0x90, 0xF0, 0x10, 0x10],
  [0xF0, 0x80, 0xF0, 0x10, 0xF0],
  [0xF0, 0x80, 0xF0, 0x90, 0xF0],
  [0xF0, 0x10, 0x20, 0x40, 0x40],
  [0xF0, 0x90, 0xF0, 0x90, 0xF0],
  [0xF0, 0x90, 0xF0, 0x10, 0xF0],
  [0xF0, 0x90, 0xF0, 0x90, 0x90],
  [0xE0, 0x90, 0xE0, 0x90, 0xE0],
  [0xF0, 0x80, 0x80, 0x80, 0xF0],
  [0xE0, 0x90, 0x90, 0x90, 0xE0],
  [0xF0, 0x80, 0xF0, 0x80, 0xF0],
  [0xF0, 0x80, 0xF0, 0x80, 0x80]]

-- The 35 instruction tags plus the ILLEGAL marker (enum class Instruction).
inductive Instruction where
  | CLS | RET | SYS_a | JP_a | CALL_a | SE_v_b | SNE_v_b | SE_v_v
  | LD_v_b | ADD_v_b | LD_v_v | OR_v_v | AND_v_v | XOR_v_v | ADD_v_v
  | SUB_v_v | SHR_v | SUBN_v_v | SHL_v | SNE_v_v | LD_I_a | JP_V0_a
  | RND_v_b | DRW_v_v_n | SKP_v | SKNP_v | LD_v_DT | LD_v_K | LD_DT_v
  | LD_ST_v | ADD_I_v | LD_F_v | LD_B_v | LD_IM_v | LD_v_IM
  | ILLEGAL
deriving DecidableEq, Repr

open Instruction

-- The 35 legal tags in enum order (index of each tag in the parallel tables).
def INSTRUCTION_TAGS : List Instruction := [
  CLS, RET, SYS_a, JP_a, CALL_a, SE_v_b, SNE_v_b, SE_v_v, LD_v_b,
  ADD_v_b, LD_v_v, OR_v_v, AND_v_v, XOR_v_v, ADD_v_v, SUB_v_v, SHR_v,
  SUBN_v_v, SHL_v, SNE_v_v, LD_I_a, JP_V0_a, RND_v_b, DRW_v_v_n, SKP_v,
  SKNP_v, LD_v_DT, LD_v_K, LD_DT_v, LD_ST_v, ADD_I_v, LD_F_v, LD_B_v,
  LD_IM_v, LD_v_IM]

-- INSTRUCTION_FORMATS from src/include/chip8.hxx, ordered as per Instruction.
def INSTRUCTION_FORMATS : List String := [
  "CLS",      "RET",      "SYS a",    "JP a",      "CALL a",    "SE v, b",
  "SNE v, b", "SE v, v",  "LD v, b",  "ADD v, b",  "LD v, v",   "OR v, v",
  "AND v, v", "XOR v, v", "ADD v, v", "SUB v, v",  "SHR v",     "SUBN v, v",
  "SHL v",    "SNE v, v", "LD I, a",  "JP V0, a",  "RND v, b",  "DRW v, v, n",
  "SKP v",    "SKNP v",   "LD v, DT", "LD v, K",   "LD DT, v",  "LD ST, v",
  "ADD I, v", "LD F, v",  "LD B, v",  "LD [I], v", "LD v, [I]"]

-- REGISTERS from src/include/chip8.hxx.
def REGISTERS : List String := [
  "V0", "V1", "V2", "V3", "V4", "V5", "V6", "V7",
  "V8", "V9", "VA", "VB", "VC", "VD", "VE", "VF"]

-- SPECIAL_REGISTERS from src/include/chip8.hxx.
def SPECIAL_REGISTERS : List String := ["F", "B", "I", "K", "DT", "ST"]

-- INSTRUCTIONS (mnemonics) from src/include/chip8.hxx.
def INSTRUCTIONS : List String := [
  "CLS", "RET", "SYS", "JP",  "CALL", "SE",  "SNE", "SE",   "LD",
  "ADD", "LD",  "OR",  "AND", "XOR",  "ADD", "SUB", "SHR",  "SUBN",
  "SHL", "SNE", "LD",  "JP",  "RND",  "DRW", "SKP", "SKNP", "LD",
  "LD",  "LD",  "LD",  "ADD", "LD",   "LD",  "LD",  "LD"]

-- OPCODES (masked opcode templates) from src/include/chip8.hxx.
def OPCODES : List Nat := [
  0x00E0, 0x00EE, 0x0000, 0x1000, 0x2000, 0x3000, 0x4000, 0x5000, 0x6000,
  0x7000, 0x8000, 0x8001, 0x8002, 0x8003, 0x8004, 0x8005, 0x8006, 0x8007,
  0x800E, 0x9000, 0xA000, 0xB000, 0xC000, 0xD000, 0xE09E, 0xE0A1, 0xF007,
  0xF00A, 0xF015, 0xF018, 0xF01E, 0xF029, 0xF033, 0xF055, 0xF065]

def tagIndex (t : Instruction) : Nat := (INSTRUCTION_TAGS.indexOf t)

def opcodeOf (t : Instruction) : Nat := OPCODES.getD (tagIndex t) 0

-- get_bits from src/emulator/decoder.cxx: (word >> offset) & ~(~0U << n).
def getBits (word off n : Nat) : Nat := (word >>> off) &&& (2 ^ n - 1)

-- Decoded instruction (struct DecodedIns, src/emulator/decoder.hxx).
structure DecodedIns where
  bincode : Nat
  vx : Nat
  vy : Nat
  addr : Nat
  nibble : Nat
  byte : Nat
  type : Instruction
deriving DecidableEq, Repr

-- Table for the ms_opcode == 0x8 group (ms_opcode_x8_map in decoder.cxx).
def msOpcodeX8Map : List Instruction :=
  [LD_v_v, OR_v_v, AND_v_v, XOR_v_v, ADD_v_v, SUB_v_v, SHR_v, SUBN_v_v]

-- DecodedIns::DecodedIns from src/emulator/decoder.cxx.
def decodeIns (ins : Nat) : DecodedIns :=
  let vx := getBits ins C8_VX_OFFSET 4
  let vy := getBits ins C8_VY_OFFSET 4
  let addr := getBits ins 0 12
  let nibble := getBits ins 0 4
  let byte := getBits ins 0 8
  let type :=
    match getBits ins 12 4 with
    | 0x0 =>
      if ins = 0x00E0 then CLS
      else if ins = 0x00EE then RET
      else SYS_a
    | 0x1 => JP_a
    | 0x2 => CALL_a
    | 0x3 => SE_v_b
    | 0x4 => SNE_v_b
    | 0x5 => SE_v_v
    | 0x6 => LD_v_b
    | 0x7 => ADD_v_b
    | 0x8 =>
      if nibble ≤ 0x7 then msOpcodeX8Map.getD nibble ILLEGAL
      else if nibble = 0xE then SHL_v
      else ILLEGAL
    | 0x9 => SNE_v_v
    | 0xa => LD_I_a
    | 0xb => JP_V0_a
    | 0xc => RND_v_b
    | 0xd => DRW_v_v_n
    | 0xe =>
      if byte = 0x9E then SKP_v
      else if byte = 0xA1 then SKNP_v
      else ILLEGAL
    | 0xf =>
      match byte with
      | 0x07 => LD_v_DT
      | 0x0A => LD_v_K
      | 0x15 => LD_DT_v
      | 0x18 => LD_ST_v
      | 0x1E => ADD_I_v
      | 0x29 => LD_F_v
      | 0x33 => LD_B_v
      | 0x55 => LD_IM_v
      | 0x65 => LD_v_IM
      | _ => ILLEGAL
    | _ => ILLEGAL
  { bincode := ins, vx := vx, vy := vy, addr := addr,
    nibble := nibble, byte := byte, type := type }

-- Machine state (class Emulator, src/emulator/emulator.hxx).
-- regs: 16 bytes; stack: 16 uint16; ram: 4096 bytes; screen: 32 rows of 64 bits.
structure Emu where
  pc : Nat
  index : Nat
  sp : Nat
  key : Nat
  regs : List Nat
  screen : List (List Bool)
  error : Bool
  waitForKey : Bool
  dtimer : ℚ
  stimer : ℚ
  keyReg : Nat
  stack : List Nat
  ram : List Nat
deriving DecidableEq, Repr

-- Emulator::update_timers.
def updateTimers (dt : ℚ) (s : Emu) : Emu :=
  let st := s.stimer - dt * (C8_TIMER_FREQ : ℚ)
  let dtm := s.dtimer - dt * (C8_TIMER_FREQ : ℚ)
  { s with
    stimer := if st < 0 then 0 else st,
    dtimer := if dtm < 0 then 0 else dtm }

-- Emulator::delay_timer: std::lround of the rational accumulator, then the
-- implicit conversion long -> uint8_t on assignment to a register.
def delayTimerRead (s : Emu) : Nat := (round s.dtimer).toNat % 256

-- Emulator::fetch_ins.
def fetchIns (s : Emu) (n : Nat) : Nat :=
  (s.ram.getD (n % C8_RAM_SIZE) 0) <<< 8 ||| s.ram.getD ((n + 1) % C8_RAM_SIZE) 0

-- Emulator::add_with_ovf: returns the register file with the flag written,
-- and the 8-bit sum.
def addWithOvf (regs : List Nat) (a b : Nat) : List Nat × Nat :=
  let s := (a + b) % 256
  (regs.set C8_FLAG_REG (if s < a ∨ s < b then 1 else 0), s)

-- One inner-loop iteration of Emulator::draw_sprite: XOR sprite bit j of
-- row i into the framebuffer and accumulate the collision flag.
def drawPixel (ram : List Nat) (idx x y i j : Nat)
    (acc : List (List Bool) × Bool) : List (List Bool) × Bool :=
  let scr := acc.1
  let yf := (y + i) % C8_SCREEN_HEIGHT
  let xf := (x + j) % C8_SCREEN_WIDTH
  let imgPx := (ram.getD ((idx + i) % C8_RAM_SIZE) 0 >>> (7 - j)) &&& 1
  let oldPx := (scr.getD yf []).getD xf false
  let newPx := xor oldPx (imgPx = 1)
  (scr.set yf ((scr.getD yf []).set xf newPx),
   acc.2 || (oldPx && !newPx))

-- Emulator::draw_sprite. Pixels are XOR-ed row by row (i), bit by bit (j,
-- MSB to LSB); a 1 -> 0 transition anywhere records a collision, written to
-- VF after the loops.
def drawSprite (x y height : Nat) (s : Emu) : Emu :=
  let res :=
    (List.range height).foldl (fun (acc : List (List Bool) × Bool) i =>
      (List.range 8).foldl (fun (acc2 : List (List Bool) × Bool) j =>
        drawPixel s.ram s.index x y i j acc2) acc)
      (s.screen, false)
  { s with screen := res.1,
           regs := s.regs.set C8_FLAG_REG (if res.2 then 1 else 0) }

-- The first switch of Emulator::step: instruction semantics.
-- `rnd` stands for the byte drawn from random_byte_distbr for RND_v_b.
def execIns (rnd : Nat) (ins : DecodedIns) (s : Emu) : Emu :=
  let vvx := s.regs.getD ins.vx 0
  let vvy := s.regs.getD ins.vy 0
  match ins.type with
  | CLS =>
    { s with screen := List.replicate C8_SCREEN_HEIGHT
                         (List.replicate C8_SCREEN_WIDTH false) }
  | RET =>
    let sp := (s.sp + 255) % 256
    { s with sp := sp, pc := s.stack.getD (sp % C8_STACK_SIZE) 0 }
  | SYS_a => s
  | JP_a => { s with pc := ins.addr }
  | CALL_a =>
    { s with stack := s.stack.set (s.sp % C8_STACK_SIZE) ((s.pc + C8_INSTR_LEN) % 65536),
             sp := (s.sp + 1) % 256,
             pc := ins.addr }
  | SE_v_b => if vvx = ins.byte then { s with pc := (s.pc + C8_INSTR_LEN) % 65536 } else s
  | SNE_v_b => if vvx ≠ ins.byte then { s with pc := (s.pc + C8_INSTR_LEN) % 65536 } else s
  | SE_v_v => if vvx = vvy then { s with pc := (s.pc + C8_INSTR_LEN) % 65536 } else s
  | LD_v_b => { s with regs := s.regs.set ins.vx ins.byte }
  | ADD_v_b => { s with regs := s.regs.set ins.vx ((vvx + ins.byte) % 256) }
  | LD_v_v => { s with regs := s.regs.set ins.vx vvy }
  | OR_v_v => { s with regs := s.regs.set ins.vx (vvx ||| vvy) }
  | AND_v_v => { s with regs := s.regs.set ins.vx (vvx &&& vvy) }
  | XOR_v_v => { s with regs := s.regs.set ins.vx (vvx ^^^ vvy) }
  | ADD_v_v =>
    let r := addWithOvf s.regs vvx vvy
    { s with regs := r.1.set ins.vx r.2 }
  | SUB_v_v =>
    let r := addWithOvf s.regs vvx ((256 - vvy) % 256)
    { s with regs := r.1.set ins.vx r.2 }
  | SHR_v =>
    let r1 := s.regs.set C8_FLAG_REG (vvx &&& 1)
    { s with regs := r1.set ins.vx ((r1.getD ins.vx 0) >>> 1) }
  | SUBN_v_v =>
    let r := addWithOvf s.regs vvy ((256 - vvx) % 256)
    { s with regs := r.1.set ins.vx r.2 }
  | SHL_v =>
    let r1 := s.regs.set C8_FLAG_REG ((vvx >>> 7) &&& 1)
    { s with regs := r1.set ins.vx (((r1.getD ins.vx 0) <<< 1) % 256) }
  | SNE_v_v => if vvx ≠ vvy then { s with pc := (s.pc + C8_INSTR_LEN) % 65536 } else s
  | LD_I_a => { s with index := ins.addr }
  | JP_V0_a => { s with pc := (s.regs.getD 0 0 + ins.addr) % 65536 }
  | RND_v_b => { s with regs := s.regs.set ins.vx ((rnd % 256) &&& ins.byte) }
  | DRW_v_v_n => drawSprite vvx vvy ins.nibble s
  | SKP_v =>
    if s.key ≠ C8_KEY_NONE ∧ vvx = s.key
    then { s with pc := (s.pc + C8_INSTR_LEN) % 65536 } else s
  | SKNP_v =>
    if s.key = C8_KEY_NONE ∨ vvx ≠ s.key
    then { s with pc := (s.pc + C8_INSTR_LEN) % 65536 } else s
  | LD_v_DT => { s with regs := s.regs.set ins.vx (delayTimerRead s) }
  | LD_v_K => { s with keyReg := ins.vx, waitForKey := true }
  | LD_DT_v => { s with dtimer := (vvx : ℚ) }
  | LD_ST_v => { s with stimer := (vvx : ℚ) }
  | ADD_I_v => { s with index := (s.index + vvx) % 65536 }
  | LD_F_v => { s with index := (5 * vvx) % 65536 }
  | LD_B_v =>
    { s with ram := ((s.ram.set ((s.index + 0) % C8_RAM_SIZE) (vvx / 100)).set
                       ((s.index + 1) % C8_RAM_SIZE) ((vvx % 100) / 10)).set
                       ((s.index + 2) % C8_RAM_SIZE) (vvx % 10) }
  | LD_IM_v =>
    let ram := (List.range (ins.vx + 1)).foldl
      (fun ram i => ram.set ((s.index + i) % C8_RAM_SIZE) (s.regs.getD i 0)) s.ram
    { s with ram := ram }
  | LD_v_IM =>
    let regs := (List.range (ins.vx + 1)).foldl
      (fun regs i => regs.set i (s.ram.getD ((s.index + i) % C8_RAM_SIZE) 0)) s.regs
    { s with regs := regs }
  | ILLEGAL => s

-- Does the bottom switch of Emulator::step advance PC for this type?
def advancesPc (t : Instruction) : Bool :=
  match t with
  | RET | JP_a | CALL_a | JP_V0_a | LD_v_K => false
  | _ => true

-- Fetch / decode / execute / PC advance (Emulator::step after the key-wait
-- latch check).
def stepCore (rnd : Nat) (s : Emu) : Emu × Bool :=
  let bincode := fetchIns s (s.pc % C8_RAM_SIZE)
  let ins := decodeIns bincode
  if ins.type = ILLEGAL then (s, false)
  else
    let s2 := execIns rnd ins s
    (if advancesPc ins.type then { s2 with pc := (s2.pc + C8_INSTR_LEN) % 65536 } else s2,
     true)

-- Emulator::step. `dt` is the elapsed wall time since the previous step.
def emuStep (dt : ℚ) (rnd : Nat) (s : Emu) : Emu × Bool :=
  let s1 := updateTimers dt s
  if s1.waitForKey then
    if s1.key ≠ C8_KEY_NONE then
      stepCore rnd
        { s1 with pc := (s1.pc + C8_INSTR_LEN) % 65536,
                  regs := s1.regs.set s1.keyReg s1.key,
                  waitForKey := false }
    else (s1, true)
  else stepCore rnd s1

-- Emulator::Emulator: fonts at the start of RAM, ROM copied at 0x200.
def initEmu (rom : List Nat) : Emu :=
  if rom.length > C8_RAM_SIZE - C8_PROG_START then
    { pc := C8_PROG_START, index := 0, sp := 0, key := C8_KEY_NONE,
      regs := List.replicate 16 0,
      screen := List.replicate C8_SCREEN_HEIGHT (List.replicate C8_SCREEN_WIDTH false),
      error := true, waitForKey := false, dtimer := 0, stimer := 0,
      keyReg := 0, stack := List.replicate 16 0, ram := List.replicate C8_RAM_SIZE 0 }
  else
    { pc := C8_PROG_START, index := 0, sp := 0, key := C8_KEY_NONE,
      regs := List.replicate 16 0,
      screen := List.replicate C8_SCREEN_HEIGHT (List.replicate C8_SCREEN_WIDTH false),
      error := false, waitForKey := false, dtimer := 0, stimer := 0,
      keyReg := 0, stack := List.replicate 16 0,
      ram := FONT_SPRITES.flatten
              ++ List.replicate (C8_PROG_START - 80) 0
              ++ rom
              ++ List.replicate (C8_RAM_SIZE - C8_PROG_START - rom.length) 0 }

-- Iterated stepping with a fixed dt and random byte (host call loop).
def stepN (n : Nat) (s : Emu) : Emu :=
  match n with
  | 0 => s
  | n + 1 => stepN n (emuStep 0 0 s).1

-- limit_value from src/assembler/parser.cxx. `av` is a 32-bit unsigned,
-- `~av + 1` is computed in 32 bits and then truncated to u16 by the return.
def limit_value (value : Int) (bits : Nat) : Option Nat :=
  let umax : Nat := 2 ^ bits - 1
  let av : Nat := value.natAbs
  if value ≥ 0 ∧ av ≤ umax then
    some av
  else if value < 0 ∧ av ≤ (umax + 1) / 2 then
    some ((2 ^ 32 - av) % 2 ^ 32 % 2 ^ 16)
  else
    none

-- Small helper lemmas about List.getD / List.set used throughout.

theorem getD_set_self {α : Type} : ∀ (l : List α) (i : Nat) (v d : α),
    i < l.length → (l.set i v).getD i d = v := by
  intro l
  induction l with
  | nil => intro i v d h; simp at h
  | cons a t ih =>
    intro i v d h
    cases i with
    | zero => simp
    | succ n =>
      simp only [List.set_cons_succ, List.getD_cons_succ]
      exact ih n v d (by simpa using h)

theorem getD_set_ne {α : Type} : ∀ (l : List α) (i j : Nat) (v d : α),
    i ≠ j → (l.set i v).getD j d = l.getD j d := by
  intro l
  induction l with
  | nil => intro i j v d _; simp
  | cons a t ih =>
    intro i j v d hij
    cases i with
    | zero =>
      cases j with
      | zero => exact absurd rfl hij
      | succ m => simp
    | succ n =>
      cases j with
      | zero => simp
      | succ m =>
        simp only [List.set_cons_succ, List.getD_cons_succ]
        exact ih n m v d (fun h => hij (by rw [h]))

theorem getD_len_le {α : Type} : ∀ (l : List α) (i : Nat) (d : α),
    l.length ≤ i → l.getD i d = d := by
  intro l
  induction l with
  | nil => intro i d _; simp
  | cons a t ih =>
    intro i d h
    cases i with
    | zero => simp at h
    | succ n =>
      simp only [List.getD_cons_succ]
      exact ih n d (by simpa using h)

theorem getD_set_changed {α : Type} (l : List α) (i j : Nat) (v d : α)
    (h : (l.set i v).getD j d ≠ l.getD j d) : j = i ∧ j < l.length := by
  by_cases hij : i = j
  · subst hij
    by_cases hlen : i < l.length
    · exact ⟨rfl, hlen⟩
    · exfalso
      apply h
      have h1 : l.length ≤ i := by omega
      have h2 : (l.set i v).length ≤ i := by simpa using h1
      rw [getD_len_le _ _ _ h2, getD_len_le _ _ _ h1]
  · exact absurd (getD_set_ne l i j v d hij) h

theorem getD_mem {α : Type} : ∀ (l : List α) (i : Nat) (d : α),
    i < l.length → l.getD i d ∈ l := by
  intro l
  induction l with
  | nil => intro i d h; simp at h
  | cons a t ih =>
    intro i d h
    cases i with
    | zero => simp
    | succ n =>
      simp only [List.getD_cons_succ]
      exact List.mem_cons_of_mem a (ih n d (by simpa using h))

-- ======================================================================
-- Claim C1: behaviour of Emulator::step while the wait-for-key latch is set.
-- ======================================================================

-- A latched machine about to commit key 7 into V5; the ROM is
-- `LD V5, K` at 0x200 followed by `LD VA, 0x2A` at 0x202.
def c1State : Emu :=
  { initEmu [0xF5, 0x0A, 0x6A, 0x2A] with
    waitForKey := true, keyReg := 5, key := 7 }

/-- C1 counterexample: with the latch set and key = 7, a single step does
not leave PC at the latch address + 2: the code falls through after
committing the key and fetches, decodes and executes the instruction at the
new PC in the same call (here `LD VA, 0x2A`, leaving PC advanced by 4 and
VA written). -/
theorem key_commit_fallthrough_cex :
    (emuStep 0 0 c1State).1.pc ≠ (c1State.pc + C8_INSTR_LEN) % 65536 ∧
    (emuStep 0 0 c1State).1.pc = 0x204 ∧
    (emuStep 0 0 c1State).1.regs.getD 0xA 0 = 0x2A ∧
    (emuStep 0 0 c1State).1.regs.getD 0x5 0 = 7 := by
  decide

theorem updateTimers_stimer_nonneg (dt : ℚ) (s : Emu) :
    0 ≤ (updateTimers dt s).stimer := by
  simp only [updateTimers]
  split_ifs with h
  · exact le_refl 0
  · linarith

theorem updateTimers_dtimer_nonneg (dt : ℚ) (s : Emu) :
    0 ≤ (updateTimers dt s).dtimer := by
  simp only [updateTimers]
  split_ifs with h
  · exact le_refl 0
  · linarith

@[simp] theorem updateTimers_pc (dt : ℚ) (s : Emu) : (updateTimers dt s).pc = s.pc := rfl

@[simp] theorem updateTimers_index (dt : ℚ) (s : Emu) : (updateTimers dt s).index = s.index := rfl

@[simp] theorem updateTimers_sp (dt : ℚ) (s : Emu) : (updateTimers dt s).sp = s.sp := rfl

@[simp] theorem updateTimers_key (dt : ℚ) (s : Emu) : (updateTimers dt s).key = s.key := rfl

@[simp] theorem updateTimers_regs (dt : ℚ) (s : Emu) : (updateTimers dt s).regs = s.regs := rfl

@[simp] theorem updateTimers_screen (dt : ℚ) (s : Emu) : (updateTimers dt s).screen = s.screen := rfl

@[simp] theorem updateTimers_error (dt : ℚ) (s : Emu) : (updateTimers dt s).error = s.error := rfl

@[simp] theorem updateTimers_waitForKey (dt : ℚ) (s : Emu) :
    (updateTimers dt s).waitForKey = s.waitForKey := rfl

@[simp] theorem updateTimers_keyReg (dt : ℚ) (s : Emu) : (updateTimers dt s).keyReg = s.keyReg := rfl

@[simp] theorem updateTimers_stack (dt : ℚ) (s : Emu) : (updateTimers dt s).stack = s.stack := rfl

@[simp] theorem updateTimers_ram (dt : ℚ) (s : Emu) : (updateTimers dt s).ram = s.ram := rfl

@[simp] theorem fetchIns_updateTimers (dt : ℚ) (s : Emu) (n : Nat) :
    fetchIns (updateTimers dt s) n = fetchIns s n := rfl

@[simp] theorem fetchIns_commit (dt : ℚ) (s : Emu) (p : Nat) (r : List Nat) (w : Bool)
    (n : Nat) :
    fetchIns { updateTimers dt s with pc := p, regs := r, waitForKey := w } n =
      fetchIns s n := rfl

theorem updateTimers_zero (s : Emu) (h1 : 0 ≤ s.stimer) (h2 : 0 ≤ s.dtimer) :
    updateTimers 0 s = s := by
  simp only [updateTimers]
  rw [if_neg (by simpa using not_lt.mpr h2), if_neg (by simpa using not_lt.mpr h1)]
  simp

/-- C1 amended: if the latch is set and key is not the NONE sentinel, a step
updates the timers, writes the key into the latched register, clears the
latch, advances PC by 2, and then continues with a normal fetch-decode-
execute of the instruction at the updated PC in the same call (it behaves
exactly as a zero-elapsed-time step from the committed state); if the key is
NONE, the step returns success having updated only the timers. -/
theorem key_commit_continues_execution (dt : ℚ) (rnd : Nat) (s : Emu)
    (hw : s.waitForKey = true) :
    (s.key ≠ C8_KEY_NONE →
      emuStep dt rnd s =
        emuStep 0 rnd
          { s with
            stimer := (updateTimers dt s).stimer,
            dtimer := (updateTimers dt s).dtimer,
            pc := (s.pc + C8_INSTR_LEN) % 65536,
            regs := s.regs.set s.keyReg s.key,
            waitForKey := false }) ∧
    (s.key = C8_KEY_NONE →
      emuStep dt rnd s = (updateTimers dt s, true)) := by
  constructor
  · intro hk
    have hz : updateTimers 0
        ({ s with
           stimer := (updateTimers dt s).stimer,
           dtimer := (updateTimers dt s).dtimer,
           pc := (s.pc + C8_INSTR_LEN) % 65536,
           regs := s.regs.set s.keyReg s.key,
           waitForKey := false } : Emu) =
        { s with
           stimer := (updateTimers dt s).stimer,
           dtimer := (updateTimers dt s).dtimer,
           pc := (s.pc + C8_INSTR_LEN) % 65536,
           regs := s.regs.set s.keyReg s.key,
           waitForKey := false } :=
      updateTimers_zero _ (updateTimers_stimer_nonneg dt s)
        (updateTimers_dtimer_nonneg dt s)
    simp only [emuStep, updateTimers_waitForKey, updateTimers_key, updateTimers_pc,
      updateTimers_regs, updateTimers_keyReg, updateTimers_index, updateTimers_sp,
      updateTimers_screen, updateTimers_error, updateTimers_stack, updateTimers_ram,
      hw, if_true, hz, Bool.false_eq_true, if_false]
    rw [if_pos hk]
  · intro hk
    simp only [emuStep, updateTimers_waitForKey, updateTimers_key, hw, if_true, hk]
    simp

theorem key_commit_continues_execution_witness :
    emuStep 1 0 { c1State with key := C8_KEY_NONE } =
      (updateTimers 1 { c1State with key := C8_KEY_NONE }, true) :=
  (key_commit_continues_execution 1 0
    { c1State with key := C8_KEY_NONE } (by decide)).2 (by decide)

-- ======================================================================
-- Claim C2: arithmetic flags of ADD_v_v / SUB_v_v / SUBN_v_v.
-- ======================================================================

-- SUB V0, V1 with V0 = 5, V1 = 0 (opcode 0x8015 at PC = 0).
def c2SubState : Emu :=
  { pc := 0, index := 0, sp := 0, key := 16,
    regs := 5 :: List.replicate 15 0,
    screen := [], error := false, waitForKey := false,
    dtimer := 0, stimer := 0, keyReg := 0, stack := [],
    ram := [0x80, 0x15] }

-- SUBN V0, V1 with V0 = 0, V1 = 5 (opcode 0x8017 at PC = 0).
def c2SubnState : Emu :=
  { pc := 0, index := 0, sp := 0, key := 16,
    regs := 0 :: 5 :: List.replicate 14 0,
    screen := [], error := false, waitForKey := false,
    dtimer := 0, stimer := 0, keyReg := 0, stack := [],
    ram := [0x80, 0x17] }

/-- C2 failing-input evaluation: executing `SUB V0, V1` with V0 = 5, V1 = 0
leaves the correct result V0 = 5 but VF = 0, although the claim (no-borrow,
5 ≥ 0) requires VF = 1; symmetrically `SUBN V0, V1` with V0 = 0, V1 = 5
leaves V0 = 5 but VF = 0 although 5 ≥ 0 requires VF = 1. The flag computed
by add_with_ovf (`s < a || s < b`) is the carry of `a + (~b + 1)`, which is
0 whenever the subtrahend is 0. -/
theorem sub_subn_flag_failing_eval :
    (emuStep 0 0 c2SubState).1.regs.getD 0x0 0 = 5 ∧
    (emuStep 0 0 c2SubState).1.regs.getD 0xF 0 = 0 ∧
    (emuStep 0 0 c2SubnState).1.regs.getD 0x0 0 = 5 ∧
    (emuStep 0 0 c2SubnState).1.regs.getD 0xF 0 = 0 := by
  decide

-- ======================================================================
-- Claim C4: limit_value on negative in-range inputs.
-- ======================================================================

/-- C4 failing-input evaluation: limit_value(-1, 8) returns 65535 and
limit_value(-5, 4) returns 65531 — the two's complement is computed in 32
bits and truncated to 16 bits by the u16 return type, never reduced modulo
2^k, so the returned value for a negative in-range input is not below 2^k
(the claim requires 255 and 11 respectively). -/
theorem limit_value_negative_failing_eval :
    limit_value (-1) 8 = some 65535 ∧
    limit_value (-5) 4 = some 65531 ∧
    limit_value 255 8 = some 255 ∧
    limit_value (-128) 8 = some 65408 ∧
    limit_value 256 8 = none ∧
    limit_value (-129) 8 = none := by
  decide

-- ======================================================================
-- Claim C7: the stack pointer and stack accesses.
-- ======================================================================

/-- C7 counterexample: from the initial state (SP = 0) with the ROM
`CALL 0x200` at 0x200, sixteen steps reach a state whose stored stack
pointer is 16, outside 0..15. -/
theorem sp_exceeds_fifteen_cex :
    (stepN 16 (initEmu [0x22, 0x00])).sp = 16 ∧ ¬ (16 ≤ 15) := by
  constructor
  · decide
  · omega

@[simp] theorem drawSprite_sp (x y n : Nat) (s : Emu) : (drawSprite x y n s).sp = s.sp := rfl

@[simp] theorem drawSprite_stack (x y n : Nat) (s : Emu) :
    (drawSprite x y n s).stack = s.stack := rfl

theorem stepCore_sp_stack (rnd : Nat) (s : Emu)
    (hsp : s.sp < 256) (hlen : s.stack.length = 16) :
    (stepCore rnd s).1.sp < 256 ∧
    (stepCore rnd s).1.stack.length = 16 ∧
    ∀ k d, (stepCore rnd s).1.stack.getD k d ≠ s.stack.getD k d →
      k = s.sp % C8_STACK_SIZE ∧ k < C8_STACK_SIZE := by
  unfold stepCore
  rcases htype : (decodeIns (fetchIns s (s.pc % C8_RAM_SIZE))).type <;>
    simp only [htype, execIns, reduceCtorEq, if_false, if_true, advancesPc] <;>
    first
    | exact ⟨hsp, hlen, fun k d hk => absurd rfl hk⟩
    | exact ⟨by omega, hlen, fun k d hk => absurd rfl hk⟩
    | (constructor
       · omega
       constructor
       · simpa using hlen
       · intro k d hk
         have h := getD_set_changed _ _ _ _ _ hk
         rw [hlen] at h
         exact ⟨h.1, h.2⟩)
    | (split_ifs <;> exact ⟨hsp, hlen, fun k d hk => absurd rfl hk⟩)

-- The RET branch of Emulator::step: `pc = stack[--sp % C8_STACK_SIZE]` —
-- sp is decremented as a uint8 and the pop reads index (sp-1) mod 256
-- mod 16.
theorem stepCore_ret_pop (rnd : Nat) (s : Emu)
    (hret : (decodeIns (fetchIns s (s.pc % C8_RAM_SIZE))).type = RET) :
    (stepCore rnd s).1.sp = (s.sp + 255) % 256 ∧
    (stepCore rnd s).1.pc = s.stack.getD (((s.sp + 255) % 256) % C8_STACK_SIZE) 0 := by
  unfold stepCore
  simp only [hret, execIns, reduceCtorEq, if_false, if_true, advancesPc]
  constructor <;> trivial

/-- C7 amended: the stored stack pointer is an 8-bit counter: from any state
with SP < 256 and a 16-entry stack, a step leaves SP < 256 (it may pass
through values 16..255, e.g. after 16 nested CALLs), the stack keeps 16
entries, and the only stack slot a step can write is index SP mod 16 (the
CALL push); the RET pop decrements SP as a byte (to (SP+255) mod 256) and
reads the return address from stack[((SP+255) mod 256) mod 16], on the
normal path and on the key-commit path alike. The initial state has
SP = 0. -/
theorem sp_byte_and_stack_access_mod16 (dt : ℚ) (rnd : Nat) (s : Emu)
    (hsp : s.sp < 256) (hlen : s.stack.length = 16) :
    (emuStep dt rnd s).1.sp < 256 ∧
    (emuStep dt rnd s).1.stack.length = 16 ∧
    (∀ k d, (emuStep dt rnd s).1.stack.getD k d ≠ s.stack.getD k d →
      k = s.sp % C8_STACK_SIZE ∧ k < C8_STACK_SIZE) ∧
    (∀ rom, (initEmu rom).sp = 0) ∧
    (s.waitForKey = false →
      (decodeIns (fetchIns s (s.pc % C8_RAM_SIZE))).type = RET →
      (emuStep dt rnd s).1.sp = (s.sp + 255) % 256 ∧
      (emuStep dt rnd s).1.pc = s.stack.getD (((s.sp + 255) % 256) % C8_STACK_SIZE) 0) ∧
    (s.waitForKey = true → s.key ≠ C8_KEY_NONE →
      (decodeIns (fetchIns s (((s.pc + C8_INSTR_LEN) % 65536) % C8_RAM_SIZE))).type = RET →
      (emuStep dt rnd s).1.sp = (s.sp + 255) % 256 ∧
      (emuStep dt rnd s).1.pc = s.stack.getD (((s.sp + 255) % 256) % C8_STACK_SIZE) 0) := by
  have hinit : ∀ rom, (initEmu rom).sp = 0 := by
    intro rom
    unfold initEmu
    split <;> rfl
  unfold emuStep
  simp only [updateTimers_waitForKey, updateTimers_key, updateTimers_pc,
    updateTimers_regs, updateTimers_keyReg, updateTimers_sp, updateTimers_stack]
  by_cases hw : s.waitForKey
  · rw [if_pos hw]
    by_cases hk : s.key ≠ C8_KEY_NONE
    · rw [if_pos hk]
      have h := stepCore_sp_stack rnd
        { updateTimers dt s with
          pc := (s.pc + C8_INSTR_LEN) % 65536,
          regs := s.regs.set s.keyReg s.key,
          waitForKey := false } (by simpa using hsp) (by simpa using hlen)
      refine ⟨h.1, h.2.1, fun k d hk2 => h.2.2 k d hk2, hinit, ?_, ?_⟩
      · intro hwf _
        rw [hwf] at hw
        exact absurd hw (by decide)
      · intro _ _ hret
        have hret2 : (decodeIns (fetchIns
            { updateTimers dt s with
              pc := (s.pc + C8_INSTR_LEN) % 65536,
              regs := s.regs.set s.keyReg s.key,
              waitForKey := false }
            (({ updateTimers dt s with
              pc := (s.pc + C8_INSTR_LEN) % 65536,
              regs := s.regs.set s.keyReg s.key,
              waitForKey := false } : Emu).pc % C8_RAM_SIZE))).type = RET := by
          simpa using hret
        have hp := stepCore_ret_pop rnd
          { updateTimers dt s with
            pc := (s.pc + C8_INSTR_LEN) % 65536,
            regs := s.regs.set s.keyReg s.key,
            waitForKey := false } hret2
        exact ⟨hp.1.trans (by simp), hp.2.trans (by simp)⟩
    · rw [if_neg hk]
      refine ⟨by simpa using hsp, by simpa using hlen,
        fun k d hk2 => (hk2 rfl).elim, hinit, ?_, ?_⟩
      · intro hwf _
        rw [hwf] at hw
        exact absurd hw (by decide)
      · intro _ hkey _
        exact absurd hkey hk
  · rw [if_neg hw]
    have h := stepCore_sp_stack rnd (updateTimers dt s)
      (by simpa using hsp) (by simpa using hlen)
    refine ⟨h.1, h.2.1, fun k d hk2 => by simpa using h.2.2 k d (by simpa using hk2),
      hinit, ?_, ?_⟩
    · intro _ hret
      have hret2 : (decodeIns (fetchIns (updateTimers dt s)
          ((updateTimers dt s).pc % C8_RAM_SIZE))).type = RET := by
        simpa using hret
      have hp := stepCore_ret_pop rnd (updateTimers dt s) hret2
      exact ⟨hp.1.trans (by simp), hp.2.trans (by simp)⟩
    · intro hwt _ _
      exact absurd hwt hw

theorem sp_byte_and_stack_access_mod16_witness :
    ((emuStep 0 0 (initEmu [0x22, 0x00])).1.sp < 256) ∧
    (emuStep 0 0 (initEmu [0x22, 0x00])).1.stack.length = 16 ∧
    (emuStep 0 0 (initEmu [0x00, 0xEE])).1.sp =
      ((initEmu [0x00, 0xEE]).sp + 255) % 256 ∧
    (emuStep 0 0 (initEmu [0x00, 0xEE])).1.pc =
      (initEmu [0x00, 0xEE]).stack.getD
        ((((initEmu [0x00, 0xEE]).sp + 255) % 256) % C8_STACK_SIZE) 0 :=
  have h := sp_byte_and_stack_access_mod16 0 0 (initEmu [0x22, 0x00])
    (by decide) (by decide)
  have h2 := sp_byte_and_stack_access_mod16 0 0 (initEmu [0x00, 0xEE])
    (by decide) (by decide)
  have hpop := h2.2.2.2.2.1 (by decide) (by decide)
  ⟨h.1, h.2.1, hpop.1, hpop.2⟩

-- ======================================================================
-- Claim C10: ADD/SUB/SUBN with destination VF overwrite the flag with the
-- 8-bit result.
-- ======================================================================

theorem decodeIns_vy_lt (w : Nat) : (decodeIns w).vy < 16 := by
  show (w >>> C8_VY_OFFSET) &&& (2 ^ 4 - 1) < 16
  exact Nat.lt_succ_of_le Nat.and_le_right

theorem stepCore_flag_dest (rnd : Nat) (s : Emu)
    (hlen : s.regs.length = 16)
    (hvx : (decodeIns (fetchIns s (s.pc % C8_RAM_SIZE))).vx = 0xF) :
    ((decodeIns (fetchIns s (s.pc % C8_RAM_SIZE))).type = ADD_v_v →
      (stepCore rnd s).1.regs.getD 0xF 0 =
        (s.regs.getD 0xF 0 +
          s.regs.getD (decodeIns (fetchIns s (s.pc % C8_RAM_SIZE))).vy 0) % 256) ∧
    ((decodeIns (fetchIns s (s.pc % C8_RAM_SIZE))).type = SUB_v_v →
      (stepCore rnd s).1.regs.getD 0xF 0 =
        (s.regs.getD 0xF 0 +
          (256 - s.regs.getD (decodeIns (fetchIns s (s.pc % C8_RAM_SIZE))).vy 0) % 256) % 256) ∧
    ((decodeIns (fetchIns s (s.pc % C8_RAM_SIZE))).type = SUBN_v_v →
      (stepCore rnd s).1.regs.getD 0xF 0 =
        (s.regs.getD (decodeIns (fetchIns s (s.pc % C8_RAM_SIZE))).vy 0 +
          (256 - s.regs.getD 0xF 0) % 256) % 256) := by
  refine ⟨?_, ?_, ?_⟩ <;> intro ht <;> unfold stepCore <;>
    simp only [ht, hvx, execIns, addWithOvf, reduceCtorEq, if_false, if_true,
      advancesPc] <;>
    rw [getD_set_self _ _ _ _ (by simp [hlen])]

/-- C10: when the destination register index of ADD_v_v / SUB_v_v /
SUBN_v_v is 0xF, the step leaves VF holding the 8-bit result of the
operation (the carry / no-borrow flag written first inside add_with_ovf is
then overwritten by the assignment of the result to Vx = VF). -/
theorem flag_dest_gets_result (dt : ℚ) (rnd : Nat) (s : Emu) (d : DecodedIns)
    (hd : decodeIns (fetchIns s (s.pc % C8_RAM_SIZE)) = d)
    (hw : s.waitForKey = false)
    (hlen : s.regs.length = 16)
    (hb : ∀ v ∈ s.regs, v < 256)
    (hvx : d.vx = 0xF) :
    (d.type = ADD_v_v →
      ((emuStep dt rnd s).1.regs.getD 0xF 0 : ℤ) =
        ((s.regs.getD 0xF 0 : ℤ) + (s.regs.getD d.vy 0 : ℤ)) % 256) ∧
    (d.type = SUB_v_v →
      ((emuStep dt rnd s).1.regs.getD 0xF 0 : ℤ) =
        ((s.regs.getD 0xF 0 : ℤ) - (s.regs.getD d.vy 0 : ℤ)) % 256) ∧
    (d.type = SUBN_v_v →
      ((emuStep dt rnd s).1.regs.getD 0xF 0 : ℤ) =
        ((s.regs.getD d.vy 0 : ℤ) - (s.regs.getD 0xF 0 : ℤ)) % 256) := by
  subst hd
  have ha : s.regs.getD 0xF 0 < 256 :=
    hb _ (getD_mem _ _ _ (by omega))
  have hbv : s.regs.getD (decodeIns (fetchIns s (s.pc % C8_RAM_SIZE))).vy 0 < 256 :=
    hb _ (getD_mem _ _ _ (by
      have := decodeIns_vy_lt (fetchIns s (s.pc % C8_RAM_SIZE))
      omega))
  have hstep : emuStep dt rnd s = stepCore rnd (updateTimers dt s) := by
    simp only [emuStep, updateTimers_waitForKey, hw, Bool.false_eq_true, if_false]
  have hcore := stepCore_flag_dest rnd (updateTimers dt s)
    (by simpa using hlen) (by simpa using hvx)
  simp only [fetchIns_updateTimers, updateTimers_pc, updateTimers_regs] at hcore
  rw [hstep]
  refine ⟨fun ht => ?_, fun ht => ?_, fun ht => ?_⟩
  · rw [hcore.1 ht]
    omega
  · rw [hcore.2.1 ht]
    omega
  · rw [hcore.2.2 ht]
    omega

-- ADD VF, V1 with VF = 200, V1 = 100 (opcode 0x8F14 at PC = 0).
def c10State : Emu :=
  { pc := 0, index := 0, sp := 0, key := 16,
    regs := 0 :: 100 :: (List.replicate 13 0 ++ [200]),
    screen := [], error := false, waitForKey := false,
    dtimer := 0, stimer := 0, keyReg := 0, stack := [],
    ram := [0x8F, 0x14] }

theorem flag_dest_gets_result_witness :
    ((emuStep 0 0 c10State).1.regs.getD 0xF 0 : ℤ) = 44 := by
  have h := (flag_dest_gets_result 0 0 c10State
    (decodeIns (fetchIns c10State (c10State.pc % C8_RAM_SIZE))) rfl
    (by decide) (by decide) (by decide) (by decide)).1 (by decide)
  rw [h]
  decide


-- ======================================================================
-- Claim C3: decode(encode(ins)) round trip.
-- ======================================================================

def formatOf (t : Instruction) : String := INSTRUCTION_FORMATS.getD (tagIndex t) ""

-- Number of `v` operand placeholders in the instruction format.
def vCount (t : Instruction) : Nat := (formatOf t).toList.count 'v'

-- The immediate operand placeholder (a / b / n) of the format, if any.
def immChar (t : Instruction) : Option Char :=
  (formatOf t).toList.find? (fun c => c = 'a' ∨ c = 'b' ∨ c = 'n')

-- Width bound of the immediate operand declared by the ISA table.
def immMax (t : Instruction) : Nat :=
  match immChar t with
  | some 'a' => 4096
  | some 'b' => 256
  | some 'n' => 16
  | _ => 1

-- The encoding from the claim: the masked opcode template OR-ed with the
-- operand fields shifted per the ISA table (vx at bit 8, vy at bit 4,
-- addr / byte / nibble in the low bits).
def encode (t : Instruction) (x y imm : Nat) : Nat :=
  opcodeOf t ||| (x <<< C8_VX_OFFSET) ||| (y <<< C8_VY_OFFSET) ||| imm

-- The operand fields a decoded instruction carries, per its format.
def operandsOf (t : Instruction) (d : DecodedIns) : Nat × Nat × Nat :=
  (if 1 ≤ vCount t then d.vx else 0,
   if 2 ≤ vCount t then d.vy else 0,
   match immChar t with
   | some 'a' => d.addr
   | some 'b' => d.byte
   | some 'n' => d.nibble
   | _ => 0)

-- Operand fields within their declared widths; fields a format does not
-- declare are zero.
def wfOperands (t : Instruction) (x y imm : Nat) : Prop :=
  x < 16 ∧ y < 16 ∧ imm < immMax t ∧
  (vCount t < 1 → x = 0) ∧ (vCount t < 2 → y = 0)

theorem shiftRight_or_distrib (a b k : Nat) : (a ||| b) >>> k = a >>> k ||| b >>> k := by
  apply Nat.eq_of_testBit_eq
  intro i
  simp [Nat.testBit_shiftRight, Nat.testBit_lor]

theorem getBits_or (a b off n : Nat) :
    getBits (a ||| b) off n = getBits a off n ||| getBits b off n := by
  rw [getBits, getBits, getBits, shiftRight_or_distrib, Nat.and_distrib_right]

theorem getBits_eq_div_mod (w off n : Nat) : getBits w off n = w / 2 ^ off % 2 ^ n := by
  rw [getBits, Nat.shiftRight_eq_div_pow, Nat.and_pow_two_sub_one_eq_mod]

theorem gb_high (v off n : Nat) (h : v < 2 ^ off) : getBits v off n = 0 := by
  rw [getBits_eq_div_mod, Nat.div_eq_of_lt h]
  simp

theorem gb_low (v n : Nat) (h : v < 2 ^ n) : getBits v 0 n = v := by
  rw [getBits_eq_div_mod]
  simp [Nat.mod_eq_of_lt h]

theorem gb_zero (off n : Nat) : getBits 0 off n = 0 := by
  rw [getBits_eq_div_mod]
  simp

theorem gb_x12 (x : Nat) (hx : x < 16) : getBits (x <<< 8) 12 4 = 0 := by
  rw [Nat.shiftLeft_eq]
  exact gb_high _ 12 4 (by norm_num <;> omega)

theorem gb_x8 (x : Nat) (hx : x < 16) : getBits (x <<< 8) 8 4 = x := by
  rw [Nat.shiftLeft_eq, getBits_eq_div_mod]
  norm_num <;> omega

theorem gb_x4 (x : Nat) (hx : x < 16) : getBits (x <<< 8) 4 4 = 0 := by
  rw [Nat.shiftLeft_eq, getBits_eq_div_mod]
  norm_num <;> omega

theorem gb_x08 (x : Nat) (hx : x < 16) : getBits (x <<< 8) 0 8 = 0 := by
  rw [Nat.shiftLeft_eq, getBits_eq_div_mod]
  norm_num <;> omega

theorem gb_x04 (x : Nat) (hx : x < 16) : getBits (x <<< 8) 0 4 = 0 := by
  rw [Nat.shiftLeft_eq, getBits_eq_div_mod]
  norm_num <;> omega

theorem gb_y12 (y : Nat) (hy : y < 16) : getBits (y <<< 4) 12 4 = 0 := by
  rw [Nat.shiftLeft_eq]
  exact gb_high _ 12 4 (by norm_num <;> omega)

theorem gb_y8 (y : Nat) (hy : y < 16) : getBits (y <<< 4) 8 4 = 0 := by
  rw [Nat.shiftLeft_eq]
  exact gb_high _ 8 4 (by norm_num <;> omega)

theorem gb_y4 (y : Nat) (hy : y < 16) : getBits (y <<< 4) 4 4 = y := by
  rw [Nat.shiftLeft_eq, getBits_eq_div_mod]
  norm_num <;> omega

theorem gb_y08 (y : Nat) (hy : y < 16) : getBits (y <<< 4) 0 8 = y * 16 := by
  rw [Nat.shiftLeft_eq, getBits_eq_div_mod]
  norm_num <;> omega

theorem gb_y04 (y : Nat) (hy : y < 16) : getBits (y <<< 4) 0 4 = 0 := by
  rw [Nat.shiftLeft_eq, getBits_eq_div_mod]
  norm_num <;> omega

theorem decodeIns_vx (w : Nat) : (decodeIns w).vx = getBits w 8 4 := rfl

theorem decodeIns_vy_proj (w : Nat) : (decodeIns w).vy = getBits w 4 4 := rfl

theorem decodeIns_addr (w : Nat) : (decodeIns w).addr = getBits w 0 12 := rfl

theorem decodeIns_byte (w : Nat) : (decodeIns w).byte = getBits w 0 8 := rfl

theorem decodeIns_nibble (w : Nat) : (decodeIns w).nibble = getBits w 0 4 := rfl

/-- C3 counterexample: SYS_a is a legal instruction tag and 0x0E0 is within
the declared 12-bit address width, yet encoding `SYS 0x0E0` gives the word
0x00E0, which decodes as CLS, not SYS_a (likewise 0x0EE decodes as RET), so
decode(encode(ins)) = ins fails for these two operand choices. -/
theorem roundtrip_sys_cex :
    wfOperands SYS_a 0 0 0x0E0 ∧
    (decodeIns (encode SYS_a 0 0 0x0E0)).type = CLS ∧
    (decodeIns (encode SYS_a 0 0 0x0EE)).type = RET ∧
    CLS ≠ SYS_a ∧ RET ≠ SYS_a := by
  refine ⟨⟨by decide, by decide, by decide, by decide, by decide⟩, ?_, ?_, ?_, ?_⟩ <;> decide


/-- C3 amended: for every one of the 35 instruction tags and every choice of
operand fields within their declared widths, with fields the format does not
declare equal to zero, decoding the word OPCODES[tag] OR-ed with the shifted
fields recovers the same tag and the same field values — except for SYS_a
with address 0x0E0 or 0x0EE, whose encodings collide with CLS / RET. -/
theorem roundtrip_amended (t : Instruction) (x y imm : Nat)
    (hwf : wfOperands t x y imm)
    (hill : t ≠ ILLEGAL)
    (hsys : t = SYS_a → imm ≠ 0x00E0 ∧ imm ≠ 0x00EE) :
    (decodeIns (encode t x y imm)).type = t ∧
    operandsOf t (decodeIns (encode t x y imm)) = (x, y, imm) := by
  obtain ⟨hx, hy, himm, hx0, hy0⟩ := hwf
  cases t

  case ILLEGAL => exact absurd rfl hill

  case CLS =>
    have hx1 : x = 0 := hx0 (by decide)
    have hy1 : y = 0 := hy0 (by decide)
    have hM : immMax CLS = 1 := by decide
    have hi1 : imm = 0 := by omega
    subst hx1; subst hy1; subst hi1
    exact (by decide)

  case RET =>
    have hx1 : x = 0 := hx0 (by decide)
    have hy1 : y = 0 := hy0 (by decide)
    have hM : immMax RET = 1 := by decide
    have hi1 : imm = 0 := by omega
    subst hx1; subst hy1; subst hi1
    exact (by decide)

  case SYS_a =>
    have hx1 : x = 0 := hx0 (by decide)
    have hy1 : y = 0 := hy0 (by decide)
    subst hx1; subst hy1
    have hM : immMax SYS_a = 4096 := by decide
    obtain ⟨hne1, hne2⟩ := hsys rfl
    have hop : opcodeOf SYS_a = 0 := by decide
    have hw : encode SYS_a 0 0 imm = imm := by
      simp only [encode, hop, Nat.zero_shiftLeft, Nat.zero_or]
    rw [hw]
    have h12 : getBits imm 12 4 = 0 := gb_high imm 12 4 (by omega)
    refine ⟨?_, ?_⟩
    · simp only [decodeIns, h12]
      rw [if_neg hne1, if_neg hne2]
    · show ((0 : Nat), (0 : Nat), (decodeIns imm).addr) = (0, 0, imm)
      rw [decodeIns_addr, gb_low imm 12 (by omega)]

  case JP_a =>
    have hx1 : x = 0 := hx0 (by decide)
    have hy1 : y = 0 := hy0 (by decide)
    subst hx1; subst hy1
    have hM : immMax JP_a = 4096 := by decide
    have hsplit : ∀ off n, getBits (encode JP_a 0 0 imm) off n =
        getBits (opcodeOf JP_a) off n ||| getBits (0 <<< 8) off n |||
        getBits (0 <<< 4) off n ||| getBits imm off n := fun off n => by
      simp only [encode, getBits_or, C8_VX_OFFSET, C8_VY_OFFSET]
    have h12 : getBits (encode JP_a 0 0 imm) 12 4 = 1 := by
      rw [hsplit, gb_high imm 12 4 (by omega)]
      decide
    have haddr : (decodeIns (encode JP_a 0 0 imm)).addr = imm := by
      rw [decodeIns_addr, hsplit, gb_low imm 12 (by omega)]
      have h1 : getBits (opcodeOf JP_a) 0 12 = 0 := by decide
      rw [h1]
      simp [gb_zero]
    refine ⟨?_, ?_⟩
    · simp only [decodeIns, h12]
      try decide
    · show ((0 : Nat), (0 : Nat), (decodeIns (encode JP_a 0 0 imm)).addr) = (0, 0, imm)
      rw [haddr]

  case CALL_a =>
    have hx1 : x = 0 := hx0 (by decide)
    have hy1 : y = 0 := hy0 (by decide)
    subst hx1; subst hy1
    have hM : immMax CALL_a = 4096 := by decide
    have hsplit : ∀ off n, getBits (encode CALL_a 0 0 imm) off n =
        getBits (opcodeOf CALL_a) off n ||| getBits (0 <<< 8) off n |||
        getBits (0 <<< 4) off n ||| getBits imm off n := fun off n => by
      simp only [encode, getBits_or, C8_VX_OFFSET, C8_VY_OFFSET]
    have h12 : getBits (encode CALL_a 0 0 imm) 12 4 = 2 := by
      rw [hsplit, gb_high imm 12 4 (by omega)]
      decide
    have haddr : (decodeIns (encode CALL_a 0 0 imm)).addr = imm := by
      rw [decodeIns_addr, hsplit, gb_low imm 12 (by omega)]
      have h1 : getBits (opcodeOf CALL_a) 0 12 = 0 := by decide
      rw [h1]
      simp [gb_zero]
    refine ⟨?_, ?_⟩
    · simp only [decodeIns, h12]
      try decide
    · show ((0 : Nat), (0 : Nat), (decodeIns (encode CALL_a 0 0 imm)).addr) = (0, 0, imm)
      rw [haddr]

  case SE_v_b =>
    have hy1 : y = 0 := hy0 (by decide)
    subst hy1
    have hM : immMax SE_v_b = 256 := by decide
    have hsplit : ∀ off n, getBits (encode SE_v_b x 0 imm) off n =
        getBits (opcodeOf SE_v_b) off n ||| getBits (x <<< 8) off n |||
        getBits (0 <<< 4) off n ||| getBits imm off n := fun off n => by
      simp only [encode, getBits_or, C8_VX_OFFSET, C8_VY_OFFSET]
    have h12 : getBits (encode SE_v_b x 0 imm) 12 4 = 3 := by
      rw [hsplit, gb_x12 x hx, gb_high imm 12 4 (by omega)]
      decide
    have hvx1 : (decodeIns (encode SE_v_b x 0 imm)).vx = x := by
      rw [decodeIns_vx, hsplit, gb_x8 x hx, gb_high imm 8 4 (by omega)]
      have h1 : getBits (opcodeOf SE_v_b) 8 4 = 0 := by decide
      rw [h1]
      simp [gb_zero]
    have hbyte : (decodeIns (encode SE_v_b x 0 imm)).byte = imm := by
      rw [decodeIns_byte, hsplit, gb_x08 x hx, gb_low imm 8 (by omega)]
      have h1 : getBits (opcodeOf SE_v_b) 0 8 = 0 := by decide
      rw [h1]
      simp [gb_zero]
    refine ⟨?_, ?_⟩
    · simp only [decodeIns, h12]
      try decide
    · show ((decodeIns (encode SE_v_b x 0 imm)).vx, (0 : Nat),
        (decodeIns (encode SE_v_b x 0 imm)).byte) = (x, 0, imm)
      rw [hvx1, hbyte]

  case SNE_v_b =>
    have hy1 : y = 0 := hy0 (by decide)
    subst hy1
    have hM : immMax SNE_v_b = 256 := by decide
    have hsplit : ∀ off n, getBits (encode SNE_v_b x 0 imm) off n =
        getBits (opcodeOf SNE_v_b) off n ||| getBits (x <<< 8) off n |||
        getBits (0 <<< 4) off n ||| getBits imm off n := fun off n => by
      simp only [encode, getBits_or, C8_VX_OFFSET, C8_VY_OFFSET]
    have h12 : getBits (encode SNE_v_b x 0 imm) 12 4 = 4 := by
      rw [hsplit, gb_x12 x hx, gb_high imm 12 4 (by omega)]
      decide
    have hvx1 : (decodeIns (encode SNE_v_b x 0 imm)).vx = x := by
      rw [decodeIns_vx, hsplit, gb_x8 x hx, gb_high imm 8 4 (by omega)]
      have h1 : getBits (opcodeOf SNE_v_b) 8 4 = 0 := by decide
      rw [h1]
      simp [gb_zero]
    have hbyte : (decodeIns (encode SNE_v_b x 0 imm)).byte = imm := by
      rw [decodeIns_byte, hsplit, gb_x08 x hx, gb_low imm 8 (by omega)]
      have h1 : getBits (opcodeOf SNE_v_b) 0 8 = 0 := by decide
      rw [h1]
      simp [gb_zero]
    refine ⟨?_, ?_⟩
    · simp only [decodeIns, h12]
      try decide
    · show ((decodeIns (encode SNE_v_b x 0 imm)).vx, (0 : Nat),
        (decodeIns (encode SNE_v_b x 0 imm)).byte) = (x, 0, imm)
      rw [hvx1, hbyte]

  case SE_v_v =>
    have hM : immMax SE_v_v = 1 := by decide
    have hi1 : imm = 0 := by omega
    subst hi1
    have hsplit : ∀ off n, getBits (encode SE_v_v x y 0) off n =
        getBits (opcodeOf SE_v_v) off n ||| getBits (x <<< 8) off n |||
        getBits (y <<< 4) off n ||| getBits 0 off n := fun off n => by
      simp only [encode, getBits_or, C8_VX_OFFSET, C8_VY_OFFSET]
    have h12 : getBits (encode SE_v_v x y 0) 12 4 = 5 := by
      rw [hsplit, gb_x12 x hx, gb_y12 y hy]
      decide
    have hvx1 : (decodeIns (encode SE_v_v x y 0)).vx = x := by
      rw [decodeIns_vx, hsplit, gb_x8 x hx, gb_y8 y hy]
      have h1 : getBits (opcodeOf SE_v_v) 8 4 = 0 := by decide
      rw [h1]
      simp [gb_zero]
    have hvy1 : (decodeIns (encode SE_v_v x y 0)).vy = y := by
      rw [decodeIns_vy_proj, hsplit, gb_x4 x hx, gb_y4 y hy]
      have h1 : getBits (opcodeOf SE_v_v) 4 4 = 0 := by decide
      rw [h1]
      simp [gb_zero]
    refine ⟨?_, ?_⟩
    · simp only [decodeIns, h12]
      try decide
    · show ((decodeIns (encode SE_v_v x y 0)).vx,
        (decodeIns (encode SE_v_v x y 0)).vy, (0 : Nat)) = (x, y, 0)
      rw [hvx1, hvy1]

  case LD_v_b =>
    have hy1 : y = 0 := hy0 (by decide)
    subst hy1
    have hM : immMax LD_v_b = 256 := by decide
    have hsplit : ∀ off n, getBits (encode LD_v_b x 0 imm) off n =
        getBits (opcodeOf LD_v_b) off n ||| getBits (x <<< 8) off n |||
        getBits (0 <<< 4) off n ||| getBits imm off n := fun off n => by
      simp only [encode, getBits_or, C8_VX_OFFSET, C8_VY_OFFSET]
    have h12 : getBits (encode LD_v_b x 0 imm) 12 4 = 6 := by
      rw [hsplit, gb_x12 x hx, gb_high imm 12 4 (by omega)]
      decide
    have hvx1 : (decodeIns (encode LD_v_b x 0 imm)).vx = x := by
      rw [decodeIns_vx, hsplit, gb_x8 x hx, gb_high imm 8 4 (by omega)]
      have h1 : getBits (opcodeOf LD_v_b) 8 4 = 0 := by decide
      rw [h1]
      simp [gb_zero]
    have hbyte : (decodeIns (encode LD_v_b x 0 imm)).byte = imm := by
      rw [decodeIns_byte, hsplit, gb_x08 x hx, gb_low imm 8 (by omega)]
      have h1 : getBits (opcodeOf LD_v_b) 0 8 = 0 := by decide
      rw [h1]
      simp [gb_zero]
    refine ⟨?_, ?_⟩
    · simp only [decodeIns, h12]
      try decide
    · show ((decodeIns (encode LD_v_b x 0 imm)).vx, (0 : Nat),
        (decodeIns (encode LD_v_b x 0 imm)).byte) = (x, 0, imm)
      rw [hvx1, hbyte]

  case ADD_v_b =>
    have hy1 : y = 0 := hy0 (by decide)
    subst hy1
    have hM : immMax ADD_v_b = 256 := by decide
    have hsplit : ∀ off n, getBits (encode ADD_v_b x 0 imm) off n =
        getBits (opcodeOf ADD_v_b) off n ||| getBits (x <<< 8) off n |||
        getBits (0 <<< 4) off n ||| getBits imm off n := fun off n => by
      simp only [encode, getBits_or, C8_VX_OFFSET, C8_VY_OFFSET]
    have h12 : getBits (encode ADD_v_b x 0 imm) 12 4 = 7 := by
      rw [hsplit, gb_x12 x hx, gb_high imm 12 4 (by omega)]
      decide
    have hvx1 : (decodeIns (encode ADD_v_b x 0 imm)).vx = x := by
      rw [decodeIns_vx, hsplit, gb_x8 x hx, gb_high imm 8 4 (by omega)]
      have h1 : getBits (opcodeOf ADD_v_b) 8 4 = 0 := by decide
      rw [h1]
      simp [gb_zero]
    have hbyte : (decodeIns (encode ADD_v_b x 0 imm)).byte = imm := by
      rw [decodeIns_byte, hsplit, gb_x08 x hx, gb_low imm 8 (by omega)]
      have h1 : getBits (opcodeOf ADD_v_b) 0 8 = 0 := by decide
      rw [h1]
      simp [gb_zero]
    refine ⟨?_, ?_⟩
    · simp only [decodeIns, h12]
      try decide
    · show ((decodeIns (encode ADD_v_b x 0 imm)).vx, (0 : Nat),
        (decodeIns (encode ADD_v_b x 0 imm)).byte) = (x, 0, imm)
      rw [hvx1, hbyte]

  case LD_v_v =>
    have hM : immMax LD_v_v = 1 := by decide
    have hi1 : imm = 0 := by omega
    subst hi1
    have hsplit : ∀ off n, getBits (encode LD_v_v x y 0) off n =
        getBits (opcodeOf LD_v_v) off n ||| getBits (x <<< 8) off n |||
        getBits (y <<< 4) off n ||| getBits 0 off n := fun off n => by
      simp only [encode, getBits_or, C8_VX_OFFSET, C8_VY_OFFSET]
    have h12 : getBits (encode LD_v_v x y 0) 12 4 = 8 := by
      rw [hsplit, gb_x12 x hx, gb_y12 y hy]
      decide
    have h04 : getBits (encode LD_v_v x y 0) 0 4 = 0 := by
      rw [hsplit, gb_x04 x hx, gb_y04 y hy]
      decide
    have hvx1 : (decodeIns (encode LD_v_v x y 0)).vx = x := by
      rw [decodeIns_vx, hsplit, gb_x8 x hx, gb_y8 y hy]
      have h1 : getBits (opcodeOf LD_v_v) 8 4 = 0 := by decide
      rw [h1]
      simp [gb_zero]
    have hvy1 : (decodeIns (encode LD_v_v x y 0)).vy = y := by
      rw [decodeIns_vy_proj, hsplit, gb_x4 x hx, gb_y4 y hy]
      have h1 : getBits (opcodeOf LD_v_v) 4 4 = 0 := by decide
      rw [h1]
      simp [gb_zero]
    refine ⟨?_, ?_⟩
    · simp only [decodeIns, h12, h04]
      try decide
    · show ((decodeIns (encode LD_v_v x y 0)).vx,
        (decodeIns (encode LD_v_v x y 0)).vy, (0 : Nat)) = (x, y, 0)
      rw [hvx1, hvy1]

  case OR_v_v =>
    have hM : immMax OR_v_v = 1 := by decide
    have hi1 : imm = 0 := by omega
    subst hi1
    have hsplit : ∀ off n, getBits (encode OR_v_v x y 0) off n =
        getBits (opcodeOf OR_v_v) off n ||| getBits (x <<< 8) off n |||
        getBits (y <<< 4) off n ||| getBits 0 off n := fun off n => by
      simp only [encode, getBits_or, C8_VX_OFFSET, C8_VY_OFFSET]
    have h12 : getBits (encode OR_v_v x y 0) 12 4 = 8 := by
      rw [hsplit, gb_x12 x hx, gb_y12 y hy]
      decide
    have h04 : getBits (encode OR_v_v x y 0) 0 4 = 1 := by
      rw [hsplit, gb_x04 x hx, gb_y04 y hy]
      decide
    have hvx1 : (decodeIns (encode OR_v_v x y 0)).vx = x := by
      rw [decodeIns_vx, hsplit, gb_x8 x hx, gb_y8 y hy]
      have h1 : getBits (opcodeOf OR_v_v) 8 4 = 0 := by decide
      rw [h1]
      simp [gb_zero]
    have hvy1 : (decodeIns (encode OR_v_v x y 0)).vy = y := by
      rw [decodeIns_vy_proj, hsplit, gb_x4 x hx, gb_y4 y hy]
      have h1 : getBits (opcodeOf OR_v_v) 4 4 = 0 := by decide
      rw [h1]
      simp [gb_zero]
    refine ⟨?_, ?_⟩
    · simp only [decodeIns, h12, h04]
      try decide
    · show ((decodeIns (encode OR_v_v x y 0)).vx,
        (decodeIns (encode OR_v_v x y 0)).vy, (0 : Nat)) = (x, y, 0)
      rw [hvx1, hvy1]

  case AND_v_v =>
    have hM : immMax AND_v_v = 1 := by decide
    have hi1 : imm = 0 := by omega
    subst hi1
    have hsplit : ∀ off n, getBits (encode AND_v_v x y 0) off n =
        getBits (opcodeOf AND_v_v) off n ||| getBits (x <<< 8) off n |||
        getBits (y <<< 4) off n ||| getBits 0 off n := fun off n => by
      simp only [encode, getBits_or, C8_VX_OFFSET, C8_VY_OFFSET]
    have h12 : getBits (encode AND_v_v x y 0) 12 4 = 8 := by
      rw [hsplit, gb_x12 x hx, gb_y12 y hy]
      decide
    have h04 : getBits (encode AND_v_v x y 0) 0 4 = 2 := by
      rw [hsplit, gb_x04 x hx, gb_y04 y hy]
      decide
    have hvx1 : (decodeIns (encode AND_v_v x y 0)).vx = x := by
      rw [decodeIns_vx, hsplit, gb_x8 x hx, gb_y8 y hy]
      have h1 : getBits (opcodeOf AND_v_v) 8 4 = 0 := by decide
      rw [h1]
      simp [gb_zero]
    have hvy1 : (decodeIns (encode AND_v_v x y 0)).vy = y := by
      rw [decodeIns_vy_proj, hsplit, gb_x4 x hx, gb_y4 y hy]
      have h1 : getBits (opcodeOf AND_v_v) 4 4 = 0 := by decide
      rw [h1]
      simp [gb_zero]
    refine ⟨?_, ?_⟩
    · simp only [decodeIns, h12, h04]
      try decide
    · show ((decodeIns (encode AND_v_v x y 0)).vx,
        (decodeIns (encode AND_v_v x y 0)).vy, (0 : Nat)) = (x, y, 0)
      rw [hvx1, hvy1]

  case XOR_v_v =>
    have hM : immMax XOR_v_v = 1 := by decide
    have hi1 : imm = 0 := by omega
    subst hi1
    have hsplit : ∀ off n, getBits (encode XOR_v_v x y 0) off n =
        getBits (opcodeOf XOR_v_v) off n ||| getBits (x <<< 8) off n |||
        getBits (y <<< 4) off n ||| getBits 0 off n := fun off n => by
      simp only [encode, getBits_or, C8_VX_OFFSET, C8_VY_OFFSET]
    have h12 : getBits (encode XOR_v_v x y 0) 12 4 = 8 := by
      rw [hsplit, gb_x12 x hx, gb_y12 y hy]
      decide
    have h04 : getBits (encode XOR_v_v x y 0) 0 4 = 3 := by
      rw [hsplit, gb_x04 x hx, gb_y04 y hy]
      decide
    have hvx1 : (decodeIns (encode XOR_v_v x y 0)).vx = x := by
      rw [decodeIns_vx, hsplit, gb_x8 x hx, gb_y8 y hy]
      have h1 : getBits (opcodeOf XOR_v_v) 8 4 = 0 := by decide
      rw [h1]
      simp [gb_zero]
    have hvy1 : (decodeIns (encode XOR_v_v x y 0)).vy = y := by
      rw [decodeIns_vy_proj, hsplit, gb_x4 x hx, gb_y4 y hy]
      have h1 : getBits (opcodeOf XOR_v_v) 4 4 = 0 := by decide
      rw [h1]
      simp [gb_zero]
    refine ⟨?_, ?_⟩
    · simp only [decodeIns, h12, h04]
      try decide
    · show ((decodeIns (encode XOR_v_v x y 0)).vx,
        (decodeIns (encode XOR_v_v x y 0)).vy, (0 : Nat)) = (x, y, 0)
      rw [hvx1, hvy1]

  case ADD_v_v =>
    have hM : immMax ADD_v_v = 1 := by decide
    have hi1 : imm = 0 := by omega
    subst hi1
    have hsplit : ∀ off n, getBits (encode ADD_v_v x y 0) off n =
        getBits (opcodeOf ADD_v_v) off n ||| getBits (x <<< 8) off n |||
        getBits (y <<< 4) off n ||| getBits 0 off n := fun off n => by
      simp only [encode, getBits_or, C8_VX_OFFSET, C8_VY_OFFSET]
    have h12 : getBits (encode ADD_v_v x y 0) 12 4 = 8 := by
      rw [hsplit, gb_x12 x hx, gb_y12 y hy]
      decide
    have h04 : getBits (encode ADD_v_v x y 0) 0 4 = 4 := by
      rw [hsplit, gb_x04 x hx, gb_y04 y hy]
      decide
    have hvx1 : (decodeIns (encode ADD_v_v x y 0)).vx = x := by
      rw [decodeIns_vx, hsplit, gb_x8 x hx, gb_y8 y hy]
      have h1 : getBits (opcodeOf ADD_v_v) 8 4 = 0 := by decide
      rw [h1]
      simp [gb_zero]
    have hvy1 : (decodeIns (encode ADD_v_v x y 0)).vy = y := by
      rw [decodeIns_vy_proj, hsplit, gb_x4 x hx, gb_y4 y hy]
      have h1 : getBits (opcodeOf ADD_v_v) 4 4 = 0 := by decide
      rw [h1]
      simp [gb_zero]
    refine ⟨?_, ?_⟩
    · simp only [decodeIns, h12, h04]
      try decide
    · show ((decodeIns (encode ADD_v_v x y 0)).vx,
        (decodeIns (encode ADD_v_v x y 0)).vy, (0 : Nat)) = (x, y, 0)
      rw [hvx1, hvy1]

  case SUB_v_v =>
    have hM : immMax SUB_v_v = 1 := by decide
    have hi1 : imm = 0 := by omega
    subst hi1
    have hsplit : ∀ off n, getBits (encode SUB_v_v x y 0) off n =
        getBits (opcodeOf SUB_v_v) off n ||| getBits (x <<< 8) off n |||
        getBits (y <<< 4) off n ||| getBits 0 off n := fun off n => by
      simp only [encode, getBits_or, C8_VX_OFFSET, C8_VY_OFFSET]
    have h12 : getBits (encode SUB_v_v x y 0) 12 4 = 8 := by
      rw [hsplit, gb_x12 x hx, gb_y12 y hy]
      decide
    have h04 : getBits (encode SUB_v_v x y 0) 0 4 = 5 := by
      rw [hsplit, gb_x04 x hx, gb_y04 y hy]
      decide
    have hvx1 : (decodeIns (encode SUB_v_v x y 0)).vx = x := by
      rw [decodeIns_vx, hsplit, gb_x8 x hx, gb_y8 y hy]
      have h1 : getBits (opcodeOf SUB_v_v) 8 4 = 0 := by decide
      rw [h1]
      simp [gb_zero]
    have hvy1 : (decodeIns (encode SUB_v_v x y 0)).vy = y := by
      rw [decodeIns_vy_proj, hsplit, gb_x4 x hx, gb_y4 y hy]
      have h1 : getBits (opcodeOf SUB_v_v) 4 4 = 0 := by decide
      rw [h1]
      simp [gb_zero]
    refine ⟨?_, ?_⟩
    · simp only [decodeIns, h12, h04]
      try decide
    · show ((decodeIns (encode SUB_v_v x y 0)).vx,
        (decodeIns (encode SUB_v_v x y 0)).vy, (0 : Nat)) = (x, y, 0)
      rw [hvx1, hvy1]

  case SHR_v =>
    have hy1 : y = 0 := hy0 (by decide)
    subst hy1
    have hM : immMax SHR_v = 1 := by decide
    have hi1 : imm = 0 := by omega
    subst hi1
    have hsplit : ∀ off n, getBits (encode SHR_v x 0 0) off n =
        getBits (opcodeOf SHR_v) off n ||| getBits (x <<< 8) off n |||
        getBits (0 <<< 4) off n ||| getBits 0 off n := fun off n => by
      simp only [encode, getBits_or, C8_VX_OFFSET, C8_VY_OFFSET]
    have h12 : getBits (encode SHR_v x 0 0) 12 4 = 8 := by
      rw [hsplit, gb_x12 x hx]
      decide
    have h04 : getBits (encode SHR_v x 0 0) 0 4 = 6 := by
      rw [hsplit, gb_x04 x hx]
      decide
    have hvx1 : (decodeIns (encode SHR_v x 0 0)).vx = x := by
      rw [decodeIns_vx, hsplit, gb_x8 x hx]
      have h1 : getBits (opcodeOf SHR_v) 8 4 = 0 := by decide
      rw [h1]
      simp [gb_zero]
    refine ⟨?_, ?_⟩
    · simp only [decodeIns, h12, h04]
      try decide
    · show ((decodeIns (encode SHR_v x 0 0)).vx, (0 : Nat), (0 : Nat)) = (x, 0, 0)
      rw [hvx1]

  case SUBN_v_v =>
    have hM : immMax SUBN_v_v = 1 := by decide
    have hi1 : imm = 0 := by omega
    subst hi1
    have hsplit : ∀ off n, getBits (encode SUBN_v_v x y 0) off n =
        getBits (opcodeOf SUBN_v_v) off n ||| getBits (x <<< 8) off n |||
        getBits (y <<< 4) off n ||| getBits 0 off n := fun off n => by
      simp only [encode, getBits_or, C8_VX_OFFSET, C8_VY_OFFSET]
    have h12 : getBits (encode SUBN_v_v x y 0) 12 4 = 8 := by
      rw [hsplit, gb_x12 x hx, gb_y12 y hy]
      decide
    have h04 : getBits (encode SUBN_v_v x y 0) 0 4 = 7 := by
      rw [hsplit, gb_x04 x hx, gb_y04 y hy]
      decide
    have hvx1 : (decodeIns (encode SUBN_v_v x y 0)).vx = x := by
      rw [decodeIns_vx, hsplit, gb_x8 x hx, gb_y8 y hy]
      have h1 : getBits (opcodeOf SUBN_v_v) 8 4 = 0 := by decide
      rw [h1]
      simp [gb_zero]
    have hvy1 : (decodeIns (encode SUBN_v_v x y 0)).vy = y := by
      rw [decodeIns_vy_proj, hsplit, gb_x4 x hx, gb_y4 y hy]
      have h1 : getBits (opcodeOf SUBN_v_v) 4 4 = 0 := by decide
      rw [h1]
      simp [gb_zero]
    refine ⟨?_, ?_⟩
    · simp only [decodeIns, h12, h04]
      try decide
    · show ((decodeIns (encode SUBN_v_v x y 0)).vx,
        (decodeIns (encode SUBN_v_v x y 0)).vy, (0 : Nat)) = (x, y, 0)
      rw [hvx1, hvy1]

  case SHL_v =>
    have hy1 : y = 0 := hy0 (by decide)
    subst hy1
    have hM : immMax SHL_v = 1 := by decide
    have hi1 : imm = 0 := by omega
    subst hi1
    have hsplit : ∀ off n, getBits (encode SHL_v x 0 0) off n =
        getBits (opcodeOf SHL_v) off n ||| getBits (x <<< 8) off n |||
        getBits (0 <<< 4) off n ||| getBits 0 off n := fun off n => by
      simp only [encode, getBits_or, C8_VX_OFFSET, C8_VY_OFFSET]
    have h12 : getBits (encode SHL_v x 0 0) 12 4 = 8 := by
      rw [hsplit, gb_x12 x hx]
      decide
    have h04 : getBits (encode SHL_v x 0 0) 0 4 = 14 := by
      rw [hsplit, gb_x04 x hx]
      decide
    have hvx1 : (decodeIns (encode SHL_v x 0 0)).vx = x := by
      rw [decodeIns_vx, hsplit, gb_x8 x hx]
      have h1 : getBits (opcodeOf SHL_v) 8 4 = 0 := by decide
      rw [h1]
      simp [gb_zero]
    refine ⟨?_, ?_⟩
    · simp only [decodeIns, h12, h04]
      try decide
    · show ((decodeIns (encode SHL_v x 0 0)).vx, (0 : Nat), (0 : Nat)) = (x, 0, 0)
      rw [hvx1]

  case SNE_v_v =>
    have hM : immMax SNE_v_v = 1 := by decide
    have hi1 : imm = 0 := by omega
    subst hi1
    have hsplit : ∀ off n, getBits (encode SNE_v_v x y 0) off n =
        getBits (opcodeOf SNE_v_v) off n ||| getBits (x <<< 8) off n |||
        getBits (y <<< 4) off n ||| getBits 0 off n := fun off n => by
      simp only [encode, getBits_or, C8_VX_OFFSET, C8_VY_OFFSET]
    have h12 : getBits (encode SNE_v_v x y 0) 12 4 = 9 := by
      rw [hsplit, gb_x12 x hx, gb_y12 y hy]
      decide
    have hvx1 : (decodeIns (encode SNE_v_v x y 0)).vx = x := by
      rw [decodeIns_vx, hsplit, gb_x8 x hx, gb_y8 y hy]
      have h1 : getBits (opcodeOf SNE_v_v) 8 4 = 0 := by decide
      rw [h1]
      simp [gb_zero]
    have hvy1 : (decodeIns (encode SNE_v_v x y 0)).vy = y := by
      rw [decodeIns_vy_proj, hsplit, gb_x4 x hx, gb_y4 y hy]
      have h1 : getBits (opcodeOf SNE_v_v) 4 4 = 0 := by decide
      rw [h1]
      simp [gb_zero]
    refine ⟨?_, ?_⟩
    · simp only [decodeIns, h12]
      try decide
    · show ((decodeIns (encode SNE_v_v x y 0)).vx,
        (decodeIns (encode SNE_v_v x y 0)).vy, (0 : Nat)) = (x, y, 0)
      rw [hvx1, hvy1]

  case LD_I_a =>
    have hx1 : x = 0 := hx0 (by decide)
    have hy1 : y = 0 := hy0 (by decide)
    subst hx1; subst hy1
    have hM : immMax LD_I_a = 4096 := by decide
    have hsplit : ∀ off n, getBits (encode LD_I_a 0 0 imm) off n =
        getBits (opcodeOf LD_I_a) off n ||| getBits (0 <<< 8) off n |||
        getBits (0 <<< 4) off n ||| getBits imm off n := fun off n => by
      simp only [encode, getBits_or, C8_VX_OFFSET, C8_VY_OFFSET]
    have h12 : getBits (encode LD_I_a 0 0 imm) 12 4 = 10 := by
      rw [hsplit, gb_high imm 12 4 (by omega)]
      decide
    have haddr : (decodeIns (encode LD_I_a 0 0 imm)).addr = imm := by
      rw [decodeIns_addr, hsplit, gb_low imm 12 (by omega)]
      have h1 : getBits (opcodeOf LD_I_a) 0 12 = 0 := by decide
      rw [h1]
      simp [gb_zero]
    refine ⟨?_, ?_⟩
    · simp only [decodeIns, h12]
      try decide
    · show ((0 : Nat), (0 : Nat), (decodeIns (encode LD_I_a 0 0 imm)).addr) = (0, 0, imm)
      rw [haddr]

  case JP_V0_a =>
    have hx1 : x = 0 := hx0 (by decide)
    have hy1 : y = 0 := hy0 (by decide)
    subst hx1; subst hy1
    have hM : immMax JP_V0_a = 4096 := by decide
    have hsplit : ∀ off n, getBits (encode JP_V0_a 0 0 imm) off n =
        getBits (opcodeOf JP_V0_a) off n ||| getBits (0 <<< 8) off n |||
        getBits (0 <<< 4) off n ||| getBits imm off n := fun off n => by
      simp only [encode, getBits_or, C8_VX_OFFSET, C8_VY_OFFSET]
    have h12 : getBits (encode JP_V0_a 0 0 imm) 12 4 = 11 := by
      rw [hsplit, gb_high imm 12 4 (by omega)]
      decide
    have haddr : (decodeIns (encode JP_V0_a 0 0 imm)).addr = imm := by
      rw [decodeIns_addr, hsplit, gb_low imm 12 (by omega)]
      have h1 : getBits (opcodeOf JP_V0_a) 0 12 = 0 := by decide
      rw [h1]
      simp [gb_zero]
    refine ⟨?_, ?_⟩
    · simp only [decodeIns, h12]
      try decide
    · show ((0 : Nat), (0 : Nat), (decodeIns (encode JP_V0_a 0 0 imm)).addr) = (0, 0, imm)
      rw [haddr]

  case RND_v_b =>
    have hy1 : y = 0 := hy0 (by decide)
    subst hy1
    have hM : immMax RND_v_b = 256 := by decide
    have hsplit : ∀ off n, getBits (encode RND_v_b x 0 imm) off n =
        getBits (opcodeOf RND_v_b) off n ||| getBits (x <<< 8) off n |||
        getBits (0 <<< 4) off n ||| getBits imm off n := fun off n => by
      simp only [encode, getBits_or, C8_VX_OFFSET, C8_VY_OFFSET]
    have h12 : getBits (encode RND_v_b x 0 imm) 12 4 = 12 := by
      rw [hsplit, gb_x12 x hx, gb_high imm 12 4 (by omega)]
      decide
    have hvx1 : (decodeIns (encode RND_v_b x 0 imm)).vx = x := by
      rw [decodeIns_vx, hsplit, gb_x8 x hx, gb_high imm 8 4 (by omega)]
      have h1 : getBits (opcodeOf RND_v_b) 8 4 = 0 := by decide
      rw [h1]
      simp [gb_zero]
    have hbyte : (decodeIns (encode RND_v_b x 0 imm)).byte = imm := by
      rw [decodeIns_byte, hsplit, gb_x08 x hx, gb_low imm 8 (by omega)]
      have h1 : getBits (opcodeOf RND_v_b) 0 8 = 0 := by decide
      rw [h1]
      simp [gb_zero]
    refine ⟨?_, ?_⟩
    · simp only [decodeIns, h12]
      try decide
    · show ((decodeIns (encode RND_v_b x 0 imm)).vx, (0 : Nat),
        (decodeIns (encode RND_v_b x 0 imm)).byte) = (x, 0, imm)
      rw [hvx1, hbyte]

  case DRW_v_v_n =>
    have hM : immMax DRW_v_v_n = 16 := by decide
    have hsplit : ∀ off n, getBits (encode DRW_v_v_n x y imm) off n =
        getBits (opcodeOf DRW_v_v_n) off n ||| getBits (x <<< 8) off n |||
        getBits (y <<< 4) off n ||| getBits imm off n := fun off n => by
      simp only [encode, getBits_or, C8_VX_OFFSET, C8_VY_OFFSET]
    have h12 : getBits (encode DRW_v_v_n x y imm) 12 4 = 13 := by
      rw [hsplit, gb_x12 x hx, gb_y12 y hy, gb_high imm 12 4 (by omega)]
      decide
    have hvx1 : (decodeIns (encode DRW_v_v_n x y imm)).vx = x := by
      rw [decodeIns_vx, hsplit, gb_x8 x hx, gb_y8 y hy, gb_high imm 8 4 (by omega)]
      have h1 : getBits (opcodeOf DRW_v_v_n) 8 4 = 0 := by decide
      rw [h1]
      simp [gb_zero]
    have hvy1 : (decodeIns (encode DRW_v_v_n x y imm)).vy = y := by
      rw [decodeIns_vy_proj, hsplit, gb_x4 x hx, gb_y4 y hy,
        gb_high imm 4 4 (by omega)]
      have h1 : getBits (opcodeOf DRW_v_v_n) 4 4 = 0 := by decide
      rw [h1]
      simp [gb_zero]
    have hnib : (decodeIns (encode DRW_v_v_n x y imm)).nibble = imm := by
      rw [decodeIns_nibble, hsplit, gb_x04 x hx, gb_y04 y hy,
        gb_low imm 4 (by omega)]
      have h1 : getBits (opcodeOf DRW_v_v_n) 0 4 = 0 := by decide
      rw [h1]
      simp [gb_zero]
    refine ⟨?_, ?_⟩
    · simp only [decodeIns, h12]
      try decide
    · show ((decodeIns (encode DRW_v_v_n x y imm)).vx,
        (decodeIns (encode DRW_v_v_n x y imm)).vy,
        (decodeIns (encode DRW_v_v_n x y imm)).nibble) = (x, y, imm)
      rw [hvx1, hvy1, hnib]

  case SKP_v =>
    have hy1 : y = 0 := hy0 (by decide)
    subst hy1
    have hM : immMax SKP_v = 1 := by decide
    have hi1 : imm = 0 := by omega
    subst hi1
    have hsplit : ∀ off n, getBits (encode SKP_v x 0 0) off n =
        getBits (opcodeOf SKP_v) off n ||| getBits (x <<< 8) off n |||
        getBits (0 <<< 4) off n ||| getBits 0 off n := fun off n => by
      simp only [encode, getBits_or, C8_VX_OFFSET, C8_VY_OFFSET]
    have h12 : getBits (encode SKP_v x 0 0) 12 4 = 14 := by
      rw [hsplit, gb_x12 x hx]
      decide
    have h08 : getBits (encode SKP_v x 0 0) 0 8 = 158 := by
      rw [hsplit, gb_x08 x hx]
      decide
    have hvx1 : (decodeIns (encode SKP_v x 0 0)).vx = x := by
      rw [decodeIns_vx, hsplit, gb_x8 x hx]
      have h1 : getBits (opcodeOf SKP_v) 8 4 = 0 := by decide
      rw [h1]
      simp [gb_zero]
    refine ⟨?_, ?_⟩
    · simp only [decodeIns, h12, h08]
      try decide
    · show ((decodeIns (encode SKP_v x 0 0)).vx, (0 : Nat), (0 : Nat)) = (x, 0, 0)
      rw [hvx1]

  case SKNP_v =>
    have hy1 : y = 0 := hy0 (by decide)
    subst hy1
    have hM : immMax SKNP_v = 1 := by decide
    have hi1 : imm = 0 := by omega
    subst hi1
    have hsplit : ∀ off n, getBits (encode SKNP_v x 0 0) off n =
        getBits (opcodeOf SKNP_v) off n ||| getBits (x <<< 8) off n |||
        getBits (0 <<< 4) off n ||| getBits 0 off n := fun off n => by
      simp only [encode, getBits_or, C8_VX_OFFSET, C8_VY_OFFSET]
    have h12 : getBits (encode SKNP_v x 0 0) 12 4 = 14 := by
      rw [hsplit, gb_x12 x hx]
      decide
    have h08 : getBits (encode SKNP_v x 0 0) 0 8 = 161 := by
      rw [hsplit, gb_x08 x hx]
      decide
    have hvx1 : (decodeIns (encode SKNP_v x 0 0)).vx = x := by
      rw [decodeIns_vx, hsplit, gb_x8 x hx]
      have h1 : getBits (opcodeOf SKNP_v) 8 4 = 0 := by decide
      rw [h1]
      simp [gb_zero]
    refine ⟨?_, ?_⟩
    · simp only [decodeIns, h12, h08]
      try decide
    · show ((decodeIns (encode SKNP_v x 0 0)).vx, (0 : Nat), (0 : Nat)) = (x, 0, 0)
      rw [hvx1]

  case LD_v_DT =>
    have hy1 : y = 0 := hy0 (by decide)
    subst hy1
    have hM : immMax LD_v_DT = 1 := by decide
    have hi1 : imm = 0 := by omega
    subst hi1
    have hsplit : ∀ off n, getBits (encode LD_v_DT x 0 0) off n =
        getBits (opcodeOf LD_v_DT) off n ||| getBits (x <<< 8) off n |||
        getBits (0 <<< 4) off n ||| getBits 0 off n := fun off n => by
      simp only [encode, getBits_or, C8_VX_OFFSET, C8_VY_OFFSET]
    have h12 : getBits (encode LD_v_DT x 0 0) 12 4 = 15 := by
      rw [hsplit, gb_x12 x hx]
      decide
    have h08 : getBits (encode LD_v_DT x 0 0) 0 8 = 7 := by
      rw [hsplit, gb_x08 x hx]
      decide
    have hvx1 : (decodeIns (encode LD_v_DT x 0 0)).vx = x := by
      rw [decodeIns_vx, hsplit, gb_x8 x hx]
      have h1 : getBits (opcodeOf LD_v_DT) 8 4 = 0 := by decide
      rw [h1]
      simp [gb_zero]
    refine ⟨?_, ?_⟩
    · simp only [decodeIns, h12, h08]
      try decide
    · show ((decodeIns (encode LD_v_DT x 0 0)).vx, (0 : Nat), (0 : Nat)) = (x, 0, 0)
      rw [hvx1]

  case LD_v_K =>
    have hy1 : y = 0 := hy0 (by decide)
    subst hy1
    have hM : immMax LD_v_K = 1 := by decide
    have hi1 : imm = 0 := by omega
    subst hi1
    have hsplit : ∀ off n, getBits (encode LD_v_K x 0 0) off n =
        getBits (opcodeOf LD_v_K) off n ||| getBits (x <<< 8) off n |||
        getBits (0 <<< 4) off n ||| getBits 0 off n := fun off n => by
      simp only [encode, getBits_or, C8_VX_OFFSET, C8_VY_OFFSET]
    have h12 : getBits (encode LD_v_K x 0 0) 12 4 = 15 := by
      rw [hsplit, gb_x12 x hx]
      decide
    have h08 : getBits (encode LD_v_K x 0 0) 0 8 = 10 := by
      rw [hsplit, gb_x08 x hx]
      decide
    have hvx1 : (decodeIns (encode LD_v_K x 0 0)).vx = x := by
      rw [decodeIns_vx, hsplit, gb_x8 x hx]
      have h1 : getBits (opcodeOf LD_v_K) 8 4 = 0 := by decide
      rw [h1]
      simp [gb_zero]
    refine ⟨?_, ?_⟩
    · simp only [decodeIns, h12, h08]
      try decide
    · show ((decodeIns (encode LD_v_K x 0 0)).vx, (0 : Nat), (0 : Nat)) = (x, 0, 0)
      rw [hvx1]

  case LD_DT_v =>
    have hy1 : y = 0 := hy0 (by decide)
    subst hy1
    have hM : immMax LD_DT_v = 1 := by decide
    have hi1 : imm = 0 := by omega
    subst hi1
    have hsplit : ∀ off n, getBits (encode LD_DT_v x 0 0) off n =
        getBits (opcodeOf LD_DT_v) off n ||| getBits (x <<< 8) off n |||
        getBits (0 <<< 4) off n ||| getBits 0 off n := fun off n => by
      simp only [encode, getBits_or, C8_VX_OFFSET, C8_VY_OFFSET]
    have h12 : getBits (encode LD_DT_v x 0 0) 12 4 = 15 := by
      rw [hsplit, gb_x12 x hx]
      decide
    have h08 : getBits (encode LD_DT_v x 0 0) 0 8 = 21 := by
      rw [hsplit, gb_x08 x hx]
      decide
    have hvx1 : (decodeIns (encode LD_DT_v x 0 0)).vx = x := by
      rw [decodeIns_vx, hsplit, gb_x8 x hx]
      have h1 : getBits (opcodeOf LD_DT_v) 8 4 = 0 := by decide
      rw [h1]
      simp [gb_zero]
    refine ⟨?_, ?_⟩
    · simp only [decodeIns, h12, h08]
      try decide
    · show ((decodeIns (encode LD_DT_v x 0 0)).vx, (0 : Nat), (0 : Nat)) = (x, 0, 0)
      rw [hvx1]

  case LD_ST_v =>
    have hy1 : y = 0 := hy0 (by decide)
    subst hy1
    have hM : immMax LD_ST_v = 1 := by decide
    have hi1 : imm = 0 := by omega
    subst hi1
    have hsplit : ∀ off n, getBits (encode LD_ST_v x 0 0) off n =
        getBits (opcodeOf LD_ST_v) off n ||| getBits (x <<< 8) off n |||
        getBits (0 <<< 4) off n ||| getBits 0 off n := fun off n => by
      simp only [encode, getBits_or, C8_VX_OFFSET, C8_VY_OFFSET]
    have h12 : getBits (encode LD_ST_v x 0 0) 12 4 = 15 := by
      rw [hsplit, gb_x12 x hx]
      decide
    have h08 : getBits (encode LD_ST_v x 0 0) 0 8 = 24 := by
      rw [hsplit, gb_x08 x hx]
      decide
    have hvx1 : (decodeIns (encode LD_ST_v x 0 0)).vx = x := by
      rw [decodeIns_vx, hsplit, gb_x8 x hx]
      have h1 : getBits (opcodeOf LD_ST_v) 8 4 = 0 := by decide
      rw [h1]
      simp [gb_zero]
    refine ⟨?_, ?_⟩
    · simp only [decodeIns, h12, h08]
      try decide
    · show ((decodeIns (encode LD_ST_v x 0 0)).vx, (0 : Nat), (0 : Nat)) = (x, 0, 0)
      rw [hvx1]

  case ADD_I_v =>
    have hy1 : y = 0 := hy0 (by decide)
    subst hy1
    have hM : immMax ADD_I_v = 1 := by decide
    have hi1 : imm = 0 := by omega
    subst hi1
    have hsplit : ∀ off n, getBits (encode ADD_I_v x 0 0) off n =
        getBits (opcodeOf ADD_I_v) off n ||| getBits (x <<< 8) off n |||
        getBits (0 <<< 4) off n ||| getBits 0 off n := fun off n => by
      simp only [encode, getBits_or, C8_VX_OFFSET, C8_VY_OFFSET]
    have h12 : getBits (encode ADD_I_v x 0 0) 12 4 = 15 := by
      rw [hsplit, gb_x12 x hx]
      decide
    have h08 : getBits (encode ADD_I_v x 0 0) 0 8 = 30 := by
      rw [hsplit, gb_x08 x hx]
      decide
    have hvx1 : (decodeIns (encode ADD_I_v x 0 0)).vx = x := by
      rw [decodeIns_vx, hsplit, gb_x8 x hx]
      have h1 : getBits (opcodeOf ADD_I_v) 8 4 = 0 := by decide
      rw [h1]
      simp [gb_zero]
    refine ⟨?_, ?_⟩
    · simp only [decodeIns, h12, h08]
      try decide
    · show ((decodeIns (encode ADD_I_v x 0 0)).vx, (0 : Nat), (0 : Nat)) = (x, 0, 0)
      rw [hvx1]

  case LD_F_v =>
    have hy1 : y = 0 := hy0 (by decide)
    subst hy1
    have hM : immMax LD_F_v = 1 := by decide
    have hi1 : imm = 0 := by omega
    subst hi1
    have hsplit : ∀ off n, getBits (encode LD_F_v x 0 0) off n =
        getBits (opcodeOf LD_F_v) off n ||| getBits (x <<< 8) off n |||
        getBits (0 <<< 4) off n ||| getBits 0 off n := fun off n => by
      simp only [encode, getBits_or, C8_VX_OFFSET, C8_VY_OFFSET]
    have h12 : getBits (encode LD_F_v x 0 0) 12 4 = 15 := by
      rw [hsplit, gb_x12 x hx]
      decide
    have h08 : getBits (encode LD_F_v x 0 0) 0 8 = 41 := by
      rw [hsplit, gb_x08 x hx]
      decide
    have hvx1 : (decodeIns (encode LD_F_v x 0 0)).vx = x := by
      rw [decodeIns_vx, hsplit, gb_x8 x hx]
      have h1 : getBits (opcodeOf LD_F_v) 8 4 = 0 := by decide
      rw [h1]
      simp [gb_zero]
    refine ⟨?_, ?_⟩
    · simp only [decodeIns, h12, h08]
      try decide
    · show ((decodeIns (encode LD_F_v x 0 0)).vx, (0 : Nat), (0 : Nat)) = (x, 0, 0)
      rw [hvx1]

  case LD_B_v =>
    have hy1 : y = 0 := hy0 (by decide)
    subst hy1
    have hM : immMax LD_B_v = 1 := by decide
    have hi1 : imm = 0 := by omega
    subst hi1
    have hsplit : ∀ off n, getBits (encode LD_B_v x 0 0) off n =
        getBits (opcodeOf LD_B_v) off n ||| getBits (x <<< 8) off n |||
        getBits (0 <<< 4) off n ||| getBits 0 off n := fun off n => by
      simp only [encode, getBits_or, C8_VX_OFFSET, C8_VY_OFFSET]
    have h12 : getBits (encode LD_B_v x 0 0) 12 4 = 15 := by
      rw [hsplit, gb_x12 x hx]
      decide
    have h08 : getBits (encode LD_B_v x 0 0) 0 8 = 51 := by
      rw [hsplit, gb_x08 x hx]
      decide
    have hvx1 : (decodeIns (encode LD_B_v x 0 0)).vx = x := by
      rw [decodeIns_vx, hsplit, gb_x8 x hx]
      have h1 : getBits (opcodeOf LD_B_v) 8 4 = 0 := by decide
      rw [h1]
      simp [gb_zero]
    refine ⟨?_, ?_⟩
    · simp only [decodeIns, h12, h08]
      try decide
    · show ((decodeIns (encode LD_B_v x 0 0)).vx, (0 : Nat), (0 : Nat)) = (x, 0, 0)
      rw [hvx1]

  case LD_IM_v =>
    have hy1 : y = 0 := hy0 (by decide)
    subst hy1
    have hM : immMax LD_IM_v = 1 := by decide
    have hi1 : imm = 0 := by omega
    subst hi1
    have hsplit : ∀ off n, getBits (encode LD_IM_v x 0 0) off n =
        getBits (opcodeOf LD_IM_v) off n ||| getBits (x <<< 8) off n |||
        getBits (0 <<< 4) off n ||| getBits 0 off n := fun off n => by
      simp only [encode, getBits_or, C8_VX_OFFSET, C8_VY_OFFSET]
    have h12 : getBits (encode LD_IM_v x 0 0) 12 4 = 15 := by
      rw [hsplit, gb_x12 x hx]
      decide
    have h08 : getBits (encode LD_IM_v x 0 0) 0 8 = 85 := by
      rw [hsplit, gb_x08 x hx]
      decide
    have hvx1 : (decodeIns (encode LD_IM_v x 0 0)).vx = x := by
      rw [decodeIns_vx, hsplit, gb_x8 x hx]
      have h1 : getBits (opcodeOf LD_IM_v) 8 4 = 0 := by decide
      rw [h1]
      simp [gb_zero]
    refine ⟨?_, ?_⟩
    · simp only [decodeIns, h12, h08]
      try decide
    · show ((decodeIns (encode LD_IM_v x 0 0)).vx, (0 : Nat), (0 : Nat)) = (x, 0, 0)
      rw [hvx1]

  case LD_v_IM =>
    have hy1 : y = 0 := hy0 (by decide)
    subst hy1
    have hM : immMax LD_v_IM = 1 := by decide
    have hi1 : imm = 0 := by omega
    subst hi1
    have hsplit : ∀ off n, getBits (encode LD_v_IM x 0 0) off n =
        getBits (opcodeOf LD_v_IM) off n ||| getBits (x <<< 8) off n |||
        getBits (0 <<< 4) off n ||| getBits 0 off n := fun off n => by
      simp only [encode, getBits_or, C8_VX_OFFSET, C8_VY_OFFSET]
    have h12 : getBits (encode LD_v_IM x 0 0) 12 4 = 15 := by
      rw [hsplit, gb_x12 x hx]
      decide
    have h08 : getBits (encode LD_v_IM x 0 0) 0 8 = 101 := by
      rw [hsplit, gb_x08 x hx]
      decide
    have hvx1 : (decodeIns (encode LD_v_IM x 0 0)).vx = x := by
      rw [decodeIns_vx, hsplit, gb_x8 x hx]
      have h1 : getBits (opcodeOf LD_v_IM) 8 4 = 0 := by decide
      rw [h1]
      simp [gb_zero]
    refine ⟨?_, ?_⟩
    · simp only [decodeIns, h12, h08]
      try decide
    · show ((decodeIns (encode LD_v_IM x 0 0)).vx, (0 : Nat), (0 : Nat)) = (x, 0, 0)
      rw [hvx1]


theorem roundtrip_amended_witness :
    (decodeIns (encode DRW_v_v_n 3 7 5)).type = DRW_v_v_n ∧
    operandsOf DRW_v_v_n (decodeIns (encode DRW_v_v_n 3 7 5)) = (3, 7, 5) :=
  roundtrip_amended DRW_v_v_n 3 7 5
    ⟨by decide, by decide, by decide, by decide, by decide⟩
    (by decide) (fun h => by cases h)


-- ======================================================================
-- Claim C6: DRW_v_v_n sprite drawing and the collision flag.
-- ======================================================================

-- The framebuffer pixel at column px, row py.
def pix (scr : List (List Bool)) (px py : Nat) : Bool := (scr.getD py []).getD px false

-- Bit j (MSB to LSB) of sprite row i, read from RAM at (idx + i) mod 4096.
def spriteBit (ram : List Nat) (idx i j : Nat) : Bool :=
  decide ((ram.getD ((idx + i) % C8_RAM_SIZE) 0 >>> (7 - j)) &&& 1 = 1)

-- The 64 x 32 framebuffer shape.
def scrShape (scr : List (List Bool)) : Prop :=
  scr.length = 32 ∧ ∀ r ∈ scr, r.length = 64

theorem drawPixel_shape (ram : List Nat) (idx x y i j : Nat)
    (acc : List (List Bool) × Bool) (h : scrShape acc.1) :
    scrShape (drawPixel ram idx x y i j acc).1 := by
  obtain ⟨h1, h2⟩ := h
  constructor
  · simp [drawPixel, h1]
  · intro r hr
    simp only [drawPixel] at hr
    rcases List.mem_or_eq_of_mem_set hr with h3 | h3
    · exact h2 r h3
    · subst h3
      have hrow : acc.1.getD ((y + i) % C8_SCREEN_HEIGHT) [] ∈ acc.1 :=
        getD_mem _ _ _ (by rw [h1]; simp [C8_SCREEN_HEIGHT]; omega)
      rw [List.length_set]
      exact h2 _ hrow

theorem drawPixel_snd (ram : List Nat) (idx x y i j : Nat)
    (acc : List (List Bool) × Bool) :
    (drawPixel ram idx x y i j acc).2 =
      (acc.2 || (pix acc.1 ((x + j) % 64) ((y + i) % 32) && spriteBit ram idx i j)) := by
  simp only [drawPixel, pix, spriteBit, C8_SCREEN_WIDTH, C8_SCREEN_HEIGHT, C8_RAM_SIZE]
  cases h1 : (acc.1.getD ((y + i) % 32) []).getD ((x + j) % 64) false <;>
    cases h2 : decide ((ram.getD ((idx + i) % 4096) 0 >>> (7 - j)) &&& 1 = 1) <;>
    simp_all

theorem drawPixel_pix (ram : List Nat) (idx x y i j : Nat)
    (acc : List (List Bool) × Bool) (h : scrShape acc.1) (px py : Nat) :
    pix (drawPixel ram idx x y i j acc).1 px py =
      (if py = (y + i) % 32 ∧ px = (x + j) % 64
       then xor (pix acc.1 px py) (spriteBit ram idx i j)
       else pix acc.1 px py) := by
  obtain ⟨h1, h2⟩ := h
  have hrowmem : acc.1.getD ((y + i) % 32) [] ∈ acc.1 :=
    getD_mem _ _ _ (by rw [h1]; omega)
  have hrowlen : (acc.1.getD ((y + i) % 32) []).length = 64 := h2 _ hrowmem
  simp only [drawPixel, pix, spriteBit, C8_SCREEN_WIDTH, C8_SCREEN_HEIGHT, C8_RAM_SIZE]
  by_cases hpy : py = (y + i) % 32
  · subst hpy
    rw [getD_set_self _ _ _ _ (by rw [h1]; omega)]
    by_cases hpx : px = (x + j) % 64
    · subst hpx
      rw [getD_set_self _ _ _ _ (by rw [hrowlen]; omega)]
      simp
    · rw [getD_set_ne _ _ _ _ _ (fun hh => hpx hh.symm)]
      simp [hpx]
  · rw [getD_set_ne _ _ _ _ _ (fun hh => hpy hh.symm)]
    simp [hpy]


-- The inner loop over sprite bits j = 0..m-1 of row i.
def rowFold (ram : List Nat) (idx x y i m : Nat)
    (acc : List (List Bool) × Bool) : List (List Bool) × Bool :=
  (List.range m).foldl (fun acc2 j => drawPixel ram idx x y i j acc2) acc

-- The outer loop over sprite rows i = 0..n-1.
def allFold (ram : List Nat) (idx x y n : Nat) (acc : List (List Bool) × Bool) :
    List (List Bool) × Bool :=
  (List.range n).foldl (fun acc i => rowFold ram idx x y i 8 acc) acc

theorem drawSprite_eq (x y height : Nat) (s : Emu) :
    drawSprite x y height s =
      { s with
        screen := (allFold s.ram s.index x y height (s.screen, false)).1,
        regs := s.regs.set C8_FLAG_REG
          (if (allFold s.ram s.index x y height (s.screen, false)).2 then 1 else 0) } := rfl

theorem rowFold_succ (ram : List Nat) (idx x y i m : Nat) (acc : List (List Bool) × Bool) :
    rowFold ram idx x y i (m + 1) acc =
      drawPixel ram idx x y i m (rowFold ram idx x y i m acc) := by
  unfold rowFold
  rw [List.range_succ, List.foldl_append]
  rfl

theorem allFold_succ (ram : List Nat) (idx x y n : Nat) (acc : List (List Bool) × Bool) :
    allFold ram idx x y (n + 1) acc =
      rowFold ram idx x y n 8 (allFold ram idx x y n acc) := by
  unfold allFold
  rw [List.range_succ, List.foldl_append]
  rfl

theorem rowFold_inv (ram : List Nat) (idx x y i : Nat) (acc : List (List Bool) × Bool)
    (h : scrShape acc.1) :
    ∀ m, m ≤ 64 →
    scrShape (rowFold ram idx x y i m acc).1 ∧
    (∀ j, j < m → pix (rowFold ram idx x y i m acc).1 ((x + j) % 64) ((y + i) % 32) =
       xor (pix acc.1 ((x + j) % 64) ((y + i) % 32)) (spriteBit ram idx i j)) ∧
    (∀ px py, (py ≠ (y + i) % 32 ∨ ∀ j, j < m → px ≠ (x + j) % 64) →
       pix (rowFold ram idx x y i m acc).1 px py = pix acc.1 px py) ∧
    ((rowFold ram idx x y i m acc).2 = true ↔ acc.2 = true ∨
       ∃ j, j < m ∧ pix acc.1 ((x + j) % 64) ((y + i) % 32) = true ∧
         spriteBit ram idx i j = true) := by
  intro m
  induction m with
  | zero =>
    intro _
    refine ⟨h, ?_, ?_, ?_⟩
    · intro j hj
      omega
    · intro px py _
      rfl
    · simp [rowFold]
  | succ m ih =>
    intro hm
    obtain ⟨ihs, ih1, ih2, ih3⟩ := ih (by omega)
    have hcol : ∀ j1 j2 : Nat, j1 < 64 → j2 < 64 → (x + j1) % 64 = (x + j2) % 64 → j1 = j2 := by
      intro j1 j2 h1 h2 hh
      omega
    rw [rowFold_succ]
    refine ⟨drawPixel_shape _ _ _ _ _ _ _ ihs, ?_, ?_, ?_⟩
    · intro j hj
      rw [drawPixel_pix _ _ _ _ _ _ _ ihs]
      by_cases hjm : j = m
      · subst hjm
        rw [if_pos ⟨rfl, rfl⟩]
        rw [ih2 _ _ (Or.inr (fun j2 hj2 hceq =>
          absurd (hcol j j2 (by omega) (by omega) hceq) (by omega)))]
      · have hne : ¬((y + i) % 32 = (y + i) % 32 ∧ (x + j) % 64 = (x + m) % 64) := by
          intro hc
          exact hjm (hcol j m (by omega) (by omega) hc.2)
        rw [if_neg hne]
        exact ih1 j (by omega)
    · intro px py hcond
      rw [drawPixel_pix _ _ _ _ _ _ _ ihs]
      have hne : ¬(py = (y + i) % 32 ∧ px = (x + m) % 64) := by
        rcases hcond with hc | hc
        · intro hc2
          exact hc hc2.1
        · intro hc2
          exact hc m (by omega) hc2.2
      rw [if_neg hne]
      apply ih2
      rcases hcond with hc | hc
      · exact Or.inl hc
      · exact Or.inr (fun j hj => hc j (by omega))
    · rw [drawPixel_snd, Bool.or_eq_true]
      have huntouched : pix (rowFold ram idx x y i m acc).1 ((x + m) % 64) ((y + i) % 32) =
          pix acc.1 ((x + m) % 64) ((y + i) % 32) :=
        ih2 _ _ (Or.inr (fun j2 hj2 hceq =>
          absurd (hcol m j2 (by omega) (by omega) hceq) (by omega)))
      constructor
      · intro hor
        rcases hor with h1 | h1
        · rcases ih3.mp h1 with h2 | ⟨j, hj, hp, hb⟩
          · exact Or.inl h2
          · exact Or.inr ⟨j, by omega, hp, hb⟩
        · rw [Bool.and_eq_true, huntouched] at h1
          exact Or.inr ⟨m, by omega, h1.1, h1.2⟩
      · intro hor
        rcases hor with h1 | ⟨j, hj, hp, hb⟩
        · exact Or.inl (ih3.mpr (Or.inl h1))
        · by_cases hjm : j = m
          · subst hjm
            right
            rw [Bool.and_eq_true, huntouched]
            exact ⟨hp, hb⟩
          · exact Or.inl (ih3.mpr (Or.inr ⟨j, by omega, hp, hb⟩))


theorem allFold_inv (ram : List Nat) (idx x y : Nat) (s0 : List (List Bool))
    (h : scrShape s0) :
    ∀ n, n ≤ 32 →
    scrShape (allFold ram idx x y n (s0, false)).1 ∧
    (∀ i j, i < n → j < 8 →
      pix (allFold ram idx x y n (s0, false)).1 ((x + j) % 64) ((y + i) % 32) =
        xor (pix s0 ((x + j) % 64) ((y + i) % 32)) (spriteBit ram idx i j)) ∧
    (∀ px py, (∀ i j, i < n → j < 8 → ¬(py = (y + i) % 32 ∧ px = (x + j) % 64)) →
      pix (allFold ram idx x y n (s0, false)).1 px py = pix s0 px py) ∧
    ((allFold ram idx x y n (s0, false)).2 = true ↔
      ∃ i, i < n ∧ ∃ j, j < 8 ∧ pix s0 ((x + j) % 64) ((y + i) % 32) = true ∧
        spriteBit ram idx i j = true) := by
  intro n
  induction n with
  | zero =>
    intro _
    refine ⟨h, ?_, ?_, ?_⟩
    · intro i j hi _
      omega
    · intro px py _
      rfl
    · simp [allFold]
  | succ n ih =>
    intro hn
    obtain ⟨ihs, ih1, ih2, ih3⟩ := ih (by omega)
    have hrow : ∀ i1 i2 : Nat, i1 < 32 → i2 < 32 →
        (y + i1) % 32 = (y + i2) % 32 → i1 = i2 := by
      intro i1 i2 h1 h2 hh
      omega
    rw [allFold_succ]
    obtain ⟨rs, r1, r2, r3⟩ :=
      rowFold_inv ram idx x y n (allFold ram idx x y n (s0, false)) ihs 8 (by omega)
    have hold : ∀ j, j < 8 →
        pix (allFold ram idx x y n (s0, false)).1 ((x + j) % 64) ((y + n) % 32) =
          pix s0 ((x + j) % 64) ((y + n) % 32) := by
      intro j hj
      exact ih2 _ _ (fun i2 j2 hi2 _ hc =>
        absurd (hrow n i2 (by omega) (by omega) hc.1) (by omega))
    refine ⟨rs, ?_, ?_, ?_⟩
    · intro i j hi hj
      by_cases hin : i = n
      · subst hin
        rw [r1 j hj, hold j hj]
      · rw [r2 _ _ (Or.inl (fun hc =>
          absurd (hrow i n (by omega) (by omega) hc) hin))]
        exact ih1 i j (by omega) hj
    · intro px py hcond
      have hr2cond : py ≠ (y + n) % 32 ∨ ∀ j, j < 8 → px ≠ (x + j) % 64 := by
        by_cases hpy : py = (y + n) % 32
        · right
          intro j hj hpx
          exact hcond n j (by omega) hj ⟨hpy, hpx⟩
        · exact Or.inl hpy
      rw [r2 _ _ hr2cond]
      exact ih2 _ _ (fun i j hi hj => hcond i j (by omega) hj)
    · rw [r3]
      constructor
      · intro hor
        rcases hor with h1 | ⟨j, hj, hp, hb⟩
        · obtain ⟨i, hi, j, hj, hp, hb⟩ := ih3.mp h1
          exact ⟨i, by omega, j, hj, hp, hb⟩
        · rw [hold j hj] at hp
          exact ⟨n, by omega, j, hj, hp, hb⟩
      · rintro ⟨i, hi, j, hj, hp, hb⟩
        by_cases hin : i = n
        · subst hin
          exact Or.inr ⟨j, hj, by rw [hold j hj]; exact hp, hb⟩
        · exact Or.inl (ih3.mpr ⟨i, by omega, j, hj, hp, hb⟩)

/-- C6: for every sprite height n in 0..15, all Vx, Vy, RAM and framebuffer
contents: DRW XORs, for each row i < n and bit j < 8 (MSB to LSB), the
sprite bit of RAM[(I+i) mod 4096] into pixel ((Vx+j) mod 64, (Vy+i) mod 32)
without clipping; every other pixel is unchanged; and afterwards VF = 1 if
at least one pixel transitioned from 1 to 0 (old pixel on and sprite bit
on), else VF = 0. -/
theorem drw_xor_and_collision (x y n : Nat) (s : Emu)
    (hn : n < 16)
    (hlen : s.screen.length = 32)
    (hrows : ∀ r ∈ s.screen, r.length = 64)
    (hregs : s.regs.length = 16) :
    (∀ i j, i < n → j < 8 →
      pix (drawSprite x y n s).screen ((x + j) % 64) ((y + i) % 32) =
        xor (pix s.screen ((x + j) % 64) ((y + i) % 32)) (spriteBit s.ram s.index i j)) ∧
    (∀ px py, (∀ i j, i < n → j < 8 → ¬(py = (y + i) % 32 ∧ px = (x + j) % 64)) →
      pix (drawSprite x y n s).screen px py = pix s.screen px py) ∧
    ((∃ i, i < n ∧ ∃ j, j < 8 ∧ pix s.screen ((x + j) % 64) ((y + i) % 32) = true ∧
        spriteBit s.ram s.index i j = true) →
      (drawSprite x y n s).regs.getD C8_FLAG_REG 0 = 1) ∧
    (¬(∃ i, i < n ∧ ∃ j, j < 8 ∧ pix s.screen ((x + j) % 64) ((y + i) % 32) = true ∧
        spriteBit s.ram s.index i j = true) →
      (drawSprite x y n s).regs.getD C8_FLAG_REG 0 = 0) := by
  obtain ⟨hs, h1, h2, h3⟩ :=
    allFold_inv s.ram s.index x y s.screen ⟨hlen, hrows⟩ n (by omega)
  have hflag : C8_FLAG_REG < s.regs.length := by
    rw [hregs]
    decide
  rw [drawSprite_eq]
  refine ⟨fun i j hi hj => h1 i j hi hj, fun px py hc => h2 px py hc, ?_, ?_⟩
  · intro hE
    show (s.regs.set C8_FLAG_REG
      (if (allFold s.ram s.index x y n (s.screen, false)).2 = true then 1 else 0)).getD
        C8_FLAG_REG 0 = 1
    rw [getD_set_self _ _ _ _ hflag, if_pos (h3.mpr hE)]
  · intro hE
    show (s.regs.set C8_FLAG_REG
      (if (allFold s.ram s.index x y n (s.screen, false)).2 = true then 1 else 0)).getD
        C8_FLAG_REG 0 = 0
    rw [getD_set_self _ _ _ _ hflag, if_neg (fun hh => hE (h3.mp hh))]

-- A machine with one lit pixel at (0,0), a one-row sprite 0x80 at RAM[0],
-- I = 0, so drawing at (0,0) turns the pixel off and sets the collision flag.
def c6State : Emu :=
  { pc := 0, index := 0, sp := 0, key := 16,
    regs := List.replicate 16 0,
    screen := (true :: List.replicate 63 false) :: List.replicate 31 (List.replicate 64 false),
    error := false, waitForKey := false,
    dtimer := 0, stimer := 0, keyReg := 0, stack := [],
    ram := [0x80] }

theorem drw_xor_and_collision_witness :
    pix (drawSprite 0 0 1 c6State).screen 0 0 = false ∧
    (drawSprite 0 0 1 c6State).regs.getD C8_FLAG_REG 0 = 1 := by
  have h := drw_xor_and_collision 0 0 1 c6State (by decide) (by decide)
    (by decide) (by decide)
  constructor
  · have h1 := h.1 0 0 (by decide) (by decide)
    norm_num at h1
    rw [h1]
    decide
  · exact h.2.2.1 ⟨0, by decide, 0, by decide, by decide, by decide⟩


-- ======================================================================
-- Assembler lexer (src/assembler/lexer.hxx, lexer.cxx).
-- ======================================================================

inductive TokenKind where
  | Invalid | Db | Define | Instruction | Register | SpecialRegister
  | Identifier | Immediate | Char | Raw | Eof
deriving DecidableEq, Repr

structure Position where
  line : Nat
  column : Nat
deriving DecidableEq, Repr

-- Token origin: the name of the macro a token was expanded from (the C++
-- code stores a raw pointer into the macro table; macros are keyed by
-- name, so the name identifies the record).
structure Token where
  lexeme : String
  kind : TokenKind
  pos : Position
  value : Int
  origin : Option String
deriving DecidableEq, Repr

def mkToken (kind : TokenKind) (value : Int := 0) : Token :=
  { lexeme := "", kind := kind, pos := ⟨0, 0⟩, value := value, origin := none }

-- Token::operator bool.
def tokenTruthy (t : Token) : Bool :=
  decide (t.kind ≠ TokenKind.Eof ∧ t.kind ≠ TokenKind.Invalid)

-- C-locale character classifiers used via <cctype> (ASCII).
def isDigitC (c : Char) : Bool := decide (48 ≤ c.toNat ∧ c.toNat ≤ 57)

def isAlphaC (c : Char) : Bool :=
  decide ((65 ≤ c.toNat ∧ c.toNat ≤ 90) ∨ (97 ≤ c.toNat ∧ c.toNat ≤ 122))

def isAlnumC (c : Char) : Bool := isDigitC c || isAlphaC c

def isBlankC (c : Char) : Bool := decide (c.toNat = 32 ∨ c.toNat = 9)

def toLowerC (c : Char) : Char :=
  if 65 ≤ c.toNat ∧ c.toNat ≤ 90 then Char.ofNat (c.toNat + 32) else c

-- icase_equals from lexer.hxx: std::ranges::equal comparing tolower.
def icase_equals (s t : List Char) : Bool := s.map toLowerC == t.map toLowerC

def is_ident_tail_char (c : Char) : Bool := isAlnumC c || c == '_'

-- Lexer state (class Lexer). `cursor` models the C++ member `at`.
structure Lexer where
  source : List Char
  start : Nat
  cursor : Nat
  nextTokenAsLine : Bool
  line : Nat
  column : Nat
deriving DecidableEq, Repr

def lexerInit (src : String) : Lexer :=
  { source := src.toList, start := 0, cursor := 0,
    nextTokenAsLine := false, line := 1, column := 1 }

-- is_at_end: the C++ invariant keeps `at <= source.length()`, so the
-- comparison `at == source.length()` is equivalently modelled as `>=`.
def isAtEnd (lx : Lexer) : Bool := decide (lx.cursor ≥ lx.source.length)

def peekc (lx : Lexer) (adv : Nat) : Char :=
  if adv + lx.cursor ≥ lx.source.length then '\x00'
  else lx.source.getD (lx.cursor + adv) '\x00'

def nextc (lx : Lexer) : Char × Lexer :=
  if isAtEnd lx then ('\x00', lx)
  else
    let ret := lx.source.getD lx.cursor '\x00'
    if ret = '\n' then
      (ret, { lx with cursor := lx.cursor + 1, line := lx.line + 1, column := 1 })
    else
      (ret, { lx with cursor := lx.cursor + 1, column := lx.column + 1 })

def currentLexeme (lx : Lexer) : String :=
  String.mk ((lx.source.drop lx.start).take (lx.cursor - lx.start))

theorem nextc_cursor (lx : Lexer) (h : lx.cursor < lx.source.length) :
    (nextc lx).2.cursor = lx.cursor + 1 := by
  simp only [nextc, isAtEnd]
  rw [if_neg (by simp; omega)]
  split <;> rfl

theorem isAtEnd_false_lt (lx : Lexer) (h : isAtEnd lx = false) :
    lx.cursor < lx.source.length := by
  simp only [isAtEnd, decide_eq_false_iff_not, not_le] at h
  exact h

theorem nextc_source (lx : Lexer) : (nextc lx).2.source = lx.source := by
  simp only [nextc, isAtEnd]
  split
  · rfl
  · split <;> rfl

theorem peekc_ne_null (lx : Lexer) (adv : Nat) (h : peekc lx adv ≠ '\x00') :
    adv + lx.cursor < lx.source.length := by
  by_contra hc
  exact h (by simp [peekc, if_pos (by omega : adv + lx.cursor ≥ lx.source.length)])

-- Loop bodies are written with an explicit fuel that callers instantiate
-- with (remaining input + 1); every iteration consumes one input character,
-- so the fuel never runs out on the states the lexer actually reaches.
def skipBlanksF : Nat → Lexer → Lexer
  | 0, lx => lx
  | fuel + 1, lx =>
    if isBlankC (peekc lx 0) = true then skipBlanksF fuel (nextc lx).2 else lx

def skipBlanks (lx : Lexer) : Lexer :=
  skipBlanksF (lx.source.length - lx.cursor + 1) lx

-- The comment-discarding loop at the top of Lexer::next_token.
def skipCommentF : Nat → Lexer → Lexer
  | 0, lx => lx
  | fuel + 1, lx =>
    if isAtEnd lx = false ∧ peekc lx 0 ≠ '\n' then skipCommentF fuel (nextc lx).2 else lx

def skipComment (lx : Lexer) : Lexer :=
  skipCommentF (lx.source.length - lx.cursor + 1) lx


-- The Raw-token scan loop of Lexer::next (line mode).
def rawScanF : Nat → Lexer → Lexer
  | 0, lx => lx
  | fuel + 1, lx =>
    if isAtEnd lx = false ∧ peekc lx 0 ≠ ';' ∧ peekc lx 0 ≠ '\n' then
      rawScanF fuel (nextc lx).2
    else lx

def rawScan (lx : Lexer) : Lexer :=
  rawScanF (lx.source.length - lx.cursor + 1) lx

-- C int limits (32-bit int).
def INT_MAX_C : Int := 2 ^ 31 - 1
def INT_MIN_C : Int := -(2 ^ 31)

def char_to_idigit (c : Char) : Option Int :=
  let v := (toLowerC c).toNat
  if 48 ≤ v ∧ v ≤ 57 then some ((v : Int) - 48)
  else if 97 ≤ v ∧ v ≤ 122 then some ((v : Int) - 97 + 10)
  else none

-- mul_add_checked with C++ truncating (toward zero) division Int.tdiv.
def mul_add_checked (a b c : Int) : Option Int :=
  if ((a > 0 ∧ b > 0) ∨ (a < 0 ∧ b < 0)) ∧ b > Int.tdiv INT_MAX_C a then none
  else if a < 0 ∧ b > 0 ∧ a < Int.tdiv INT_MIN_C b then none
  else if a > 0 ∧ b < 0 ∧ b < Int.tdiv INT_MIN_C a then none
  else
    let ab := a * b
    if ab > 0 ∧ c > 0 ∧ ab > INT_MAX_C - c then none
    else if ab < 0 ∧ c < 0 ∧ ab < INT_MIN_C - c then none
    else some (ab + c)

-- The digit loop of Lexer::immediate: `while (auto c = peekc())` stops on
-- the NUL returned past the end.
def immLoopF : Nat → Int → Int → Lexer → Option Int × Lexer
  | 0, _, ret, lx => (some ret, lx)
  | fuel + 1, base, ret, lx =>
    let c := peekc lx 0
    if c ≠ '\x00' then
      if isAlnumC c = false then (some ret, lx)
      else
        match char_to_idigit c with
        | none => (none, lx)
        | some d =>
          if d ≥ base then (none, lx)
          else
            match mul_add_checked ret base d with
            | none => (none, lx)
            | some r => immLoopF fuel base r (nextc lx).2
    else (some ret, lx)

def immLoop (base ret : Int) (lx : Lexer) : Option Int × Lexer :=
  immLoopF (lx.source.length - lx.cursor + 1) base ret lx

-- Lexer::immediate.
def immediate (lx0 : Lexer) : Token × Lexer :=
  let c0 := peekc lx0 0
  let isNeg := c0 = '-'
  let lx1 := if c0 = '+' ∨ c0 = '-' then (nextc lx0).2 else lx0
  let base : Int :=
    if peekc lx1 0 = '0' then
      let c := toLowerC (peekc lx1 1)
      if c = 'x' then 16
      else if c = 'b' then 2
      else if c = 'o' then 8
      else 10
    else 10
  let (pref, lx2) :=
    if base ≠ 10 then
      let lxa := (nextc lx1).2
      let lxb := (nextc lxa).2
      if isAlnumC (peekc lxb 0) = false then (false, lxb) else (true, lxb)
    else (true, lx1)
  if pref = false then (mkToken TokenKind.Invalid, lx2)
  else
    match immLoop base 0 lx2 with
    | (none, lx3) => (mkToken TokenKind.Invalid, lx3)
    | (some ret, lx3) =>
      (mkToken TokenKind.Immediate (if isNeg then -ret else ret), lx3)

-- The identifier-tail loop shared by Lexer::identifier and macro_token.
def identTailLoopF : Nat → Lexer → Lexer
  | 0, lx => lx
  | fuel + 1, lx =>
    if is_ident_tail_char (peekc lx 0) = true then identTailLoopF fuel (nextc lx).2 else lx

def identTailLoop (lx : Lexer) : Lexer :=
  identTailLoopF (lx.source.length - lx.cursor + 1) lx

-- find_ident_in from Lexer::identifier (first case-insensitive match).
def find_ident_in (arr : List String) (ident : String) : Int :=
  match arr.findIdx? (fun s => icase_equals ident.toList s.toList) with
  | some i => (i : Int)
  | none => -1

-- Lexer::identifier.
def identifier (lx0 : Lexer) : Token × Lexer :=
  let lx := identTailLoop lx0
  let ident := currentLexeme lx
  if icase_equals ident.toList "db".toList then (mkToken TokenKind.Db, lx)
  else if find_ident_in INSTRUCTIONS ident ≥ 0 then (mkToken TokenKind.Instruction, lx)
  else if find_ident_in REGISTERS ident ≥ 0 then
    (mkToken TokenKind.Register (find_ident_in REGISTERS ident), lx)
  else if find_ident_in SPECIAL_REGISTERS ident ≥ 0 then
    (mkToken TokenKind.SpecialRegister, lx)
  else (mkToken TokenKind.Identifier, lx)

-- Lexer::macro_token.
def macroTok (lx0 : Lexer) : Token × Lexer :=
  let lx := (nextc lx0).2
  let lx := identTailLoop lx
  let ident := currentLexeme lx
  if icase_equals ident.toList "%define".toList then (mkToken TokenKind.Define, lx)
  else (mkToken TokenKind.Invalid, lx)

-- Lexer::next_token.
def nextToken (lx0 : Lexer) : Token × Lexer :=
  let lxa := skipBlanks lx0
  let lxb := if peekc lxa 0 = ';' then skipComment lxa else lxa
  let pos : Position := ⟨lxb.line, lxb.column⟩
  let c := peekc lxb 0
  let lxc := { lxb with start := lxb.cursor }
  let (ret, lxd) :=
    if isAtEnd lxc = true then (mkToken TokenKind.Eof, lxc)
    else if isDigitC c = true ∨ c = '+' ∨ c = '-' then immediate lxc
    else if isAlphaC c = true ∨ c = '_' then identifier lxc
    else if c = '%' ∧ (isAlphaC (peekc lxc 1) = true ∨ peekc lxc 1 = '_') then macroTok lxc
    else
      let r := nextc lxc
      (mkToken TokenKind.Char (r.1.toNat), r.2)
  ({ ret with pos := pos, lexeme := currentLexeme lxd }, lxd)

-- Lexer::next.
def lexNext (lx0 : Lexer) : Token × Lexer :=
  if lx0.nextTokenAsLine = false then nextToken lx0
  else
    let lxa := { lx0 with nextTokenAsLine := false }
    let lxb := skipBlanks lxa
    let pos : Position := ⟨lxb.line, lxb.column⟩
    let tok := mkToken TokenKind.Raw
    let lxc := { lxb with start := lxb.cursor }
    let lxd := rawScan lxc
    ({ tok with pos := pos, lexeme := currentLexeme lxd }, lxd)

-- ======================================================================
-- Rule matcher (class RuleMatcher, src/assembler/parser.cxx).
-- ======================================================================

inductive Matched where
  | None | Multiple | Register | Label | Address | Byte | Nibble | Exact
deriving DecidableEq, Repr

-- The token-collection loop of RuleMatcher::RuleMatcher: lex a format
-- string and keep the lexemes of the truthy tokens.
def collectLexemes : Nat → Lexer → List String
  | 0, _ => []
  | fuel + 1, lx =>
    let r := lexNext lx
    if tokenTruthy r.1 = true then r.1.lexeme :: collectLexemes fuel r.2 else []

def ruleLexemes (fmt : String) : List String :=
  collectLexemes (fmt.length + 1) (lexerInit fmt)

-- The 35 rule vectors built at matcher construction.
def RULES : List (List String) := INSTRUCTION_FORMATS.map ruleLexemes

structure RuleMatcher where
  match_count : Nat
  matched : Option Instruction
  matching : List Bool
deriving DecidableEq, Repr

def startNewMatch : RuleMatcher :=
  { match_count := 0, matched := none, matching := List.replicate 35 true }

-- match_one from src/assembler/parser.cxx.
def matchOne (ruleToken : String) (tok : Token) : Matched :=
  let c := ruleToken.toList.getD 0 '\x00'
  if ruleToken.length = 1 ∧ c = 'v' then
    if tok.kind = TokenKind.Register then Matched.Register else Matched.None
  else if ruleToken.length = 1 ∧ c = 'a' then
    if tok.kind = TokenKind.Identifier then Matched.Label
    else if tok.kind = TokenKind.Immediate then Matched.Address
    else Matched.None
  else if ruleToken.length = 1 ∧ c = 'b' then
    if tok.kind = TokenKind.Immediate then Matched.Byte else Matched.None
  else if ruleToken.length = 1 ∧ c = 'n' then
    if tok.kind = TokenKind.Immediate then Matched.Nibble else Matched.None
  else if icase_equals ruleToken.toList tok.lexeme.toList then Matched.Exact
  else Matched.None

def tagOfIndex (i : Nat) : Instruction := INSTRUCTION_TAGS.getD i ILLEGAL

-- The for-loop body of RuleMatcher::try_next: `count` iterations starting
-- at index i (the loop runs i = 0..34), with the `break` on rule completion.
def tryNextAux (tok : Token) : Nat → Nat → RuleMatcher → Matched → RuleMatcher × Matched
  | 0, _, m, code => (m, code)
  | count + 1, i, m, code =>
    if m.matching.getD i false = false then tryNextAux tok count (i + 1) m code
    else
      let c := matchOne ((RULES.getD i []).getD m.match_count "") tok
      let m1 := if c = Matched.None then { m with matching := m.matching.set i false } else m
      let code1 :=
        if code = Matched.None then c
        else if c ≠ Matched.None ∧ code ≠ c then Matched.Multiple
        else code
      if c ≠ Matched.None ∧ m1.match_count = (RULES.getD i []).length - 1 then
        ({ m1 with matched := some (tagOfIndex i) }, code1)
      else tryNextAux tok count (i + 1) m1 code1

-- RuleMatcher::try_next.
def tryNext (m : RuleMatcher) (tok : Token) : Matched × RuleMatcher :=
  if m.matched.isSome then (Matched.None, m)
  else
    let r := tryNextAux tok 35 0 m Matched.None
    let m2 :=
      if r.2 ≠ Matched.None then { r.1 with match_count := r.1.match_count + 1 } else r.1
    (r.2, m2)


-- ======================================================================
-- Claim C9: an Immediate token never produces Matched::Multiple.
-- ======================================================================

-- Lexeme shape of lexer-produced Immediate tokens: Lexer::next_token enters
-- immediate() exactly when the first character is a digit, '+' or '-'.
def immStartOk (s : List Char) : Bool :=
  match s with
  | [] => false
  | c :: _ => isDigitC c || c == '+' || c == '-'

-- Tokens as the lexer produces them, in the aspects the matcher is
-- sensitive to: Immediate lexemes start with a digit or a sign, Register
-- lexemes case-insensitively equal a register mnemonic.
def wfTok (t : Token) : Prop :=
  (t.kind = TokenKind.Immediate → immStartOk t.lexeme.toList = true) ∧
  (t.kind = TokenKind.Register →
    REGISTERS.any (fun r => icase_equals t.lexeme.toList r.toList) = true)

instance wfTok.decidable (t : Token) : Decidable (wfTok t) := by
  unfold wfTok
  infer_instance

theorem icase_eq_iff (a b : List Char) :
    icase_equals a b = true ↔ a.map toLowerC = b.map toLowerC := by
  simp [icase_equals]

-- Rule-token classifier: the register placeholder `v`, an immediate
-- placeholder (`a`, `b` or `n`), or an exact-match literal.
inductive RTokClass where
  | regPh | immPh | lit
deriving DecidableEq, Repr

def classifyRT (s : String) : RTokClass :=
  if s.length = 1 ∧ s.toList.getD 0 '\x00' = 'v' then RTokClass.regPh
  else if s.length = 1 ∧ (s.toList.getD 0 '\x00' = 'a' ∨ s.toList.getD 0 '\x00' = 'b' ∨
      s.toList.getD 0 '\x00' = 'n') then RTokClass.immPh
  else RTokClass.lit

-- A conservative decision table: `canBoth a b = false` certifies that no
-- well-formed token matches rule tokens a and b simultaneously.
def canBoth (a b : String) : Bool :=
  match classifyRT a, classifyRT b with
  | RTokClass.regPh, RTokClass.regPh => true
  | RTokClass.regPh, RTokClass.immPh => false
  | RTokClass.regPh, RTokClass.lit =>
    REGISTERS.any (fun r => icase_equals b.toList r.toList)
  | RTokClass.immPh, _ => true
  | RTokClass.lit, RTokClass.regPh =>
    REGISTERS.any (fun r => icase_equals a.toList r.toList)
  | RTokClass.lit, RTokClass.immPh => true
  | RTokClass.lit, RTokClass.lit => icase_equals a.toList b.toList

theorem matchOne_classify (r : String) (tok : Token)
    (h : matchOne r tok ≠ Matched.None) :
    (classifyRT r = RTokClass.regPh ∧ tok.kind = TokenKind.Register) ∨
    (classifyRT r = RTokClass.immPh ∧
      (tok.kind = TokenKind.Identifier ∨ tok.kind = TokenKind.Immediate)) ∨
    (classifyRT r = RTokClass.lit ∧ icase_equals r.toList tok.lexeme.toList = true) := by
  unfold matchOne at h
  unfold classifyRT
  by_cases h1 : r.length = 1 ∧ r.toList.getD 0 '\x00' = 'v'
  · rw [if_pos h1] at h
    rw [if_pos h1]
    left
    refine ⟨rfl, ?_⟩
    by_contra hc
    rw [if_neg hc] at h
    exact h rfl
  · rw [if_neg h1] at h
    rw [if_neg h1]
    by_cases h2 : r.length = 1 ∧ r.toList.getD 0 '\x00' = 'a'
    · rw [if_pos h2] at h
      rw [if_pos ⟨h2.1, Or.inl h2.2⟩]
      right
      left
      refine ⟨rfl, ?_⟩
      by_cases hk1 : tok.kind = TokenKind.Identifier
      · exact Or.inl hk1
      · rw [if_neg hk1] at h
        by_cases hk2 : tok.kind = TokenKind.Immediate
        · exact Or.inr hk2
        · rw [if_neg hk2] at h
          exact absurd rfl h
    · rw [if_neg h2] at h
      by_cases h3 : r.length = 1 ∧ r.toList.getD 0 '\x00' = 'b'
      · rw [if_pos h3] at h
        rw [if_pos ⟨h3.1, Or.inr (Or.inl h3.2)⟩]
        right
        left
        refine ⟨rfl, ?_⟩
        right
        by_contra hc
        rw [if_neg hc] at h
        exact h rfl
      · rw [if_neg h3] at h
        by_cases h4 : r.length = 1 ∧ r.toList.getD 0 '\x00' = 'n'
        · rw [if_pos h4] at h
          rw [if_pos ⟨h4.1, Or.inr (Or.inr h4.2)⟩]
          right
          left
          refine ⟨rfl, ?_⟩
          right
          by_contra hc
          rw [if_neg hc] at h
          exact h rfl
        · rw [if_neg h4] at h
          have hno : ¬(r.length = 1 ∧ (r.toList.getD 0 '\x00' = 'a' ∨
              r.toList.getD 0 '\x00' = 'b' ∨ r.toList.getD 0 '\x00' = 'n')) := by
            rintro ⟨hl, hc | hc | hc⟩
            · exact h2 ⟨hl, hc⟩
            · exact h3 ⟨hl, hc⟩
            · exact h4 ⟨hl, hc⟩
          rw [if_neg hno]
          right
          right
          refine ⟨rfl, ?_⟩
          by_contra hc
          rw [if_neg (by simpa using hc)] at h
          exact h rfl

theorem icase_swap_trans (a b c : List Char)
    (h1 : icase_equals a b = true) (h2 : icase_equals c b = true) :
    icase_equals a c = true := by
  rw [icase_eq_iff] at h1 h2 ⊢
  rw [h1, h2]

theorem canBoth_sound (a b : String) (tok : Token) (hw : wfTok tok)
    (ha : matchOne a tok ≠ Matched.None) (hb : matchOne b tok ≠ Matched.None) :
    canBoth a b = true := by
  obtain ⟨hwImm, hwReg⟩ := hw
  unfold canBoth
  rcases matchOne_classify a tok ha with ⟨ca, ka⟩ | ⟨ca, ka⟩ | ⟨ca, ka⟩ <;>
    rcases matchOne_classify b tok hb with ⟨cb, kb⟩ | ⟨cb, kb⟩ | ⟨cb, kb⟩ <;>
    rw [ca, cb]
  · -- regPh / immPh: the kinds contradict
    rcases kb with kb | kb <;> rw [ka] at kb <;> cases kb
  · -- regPh / lit: the register lexeme is a register mnemonic
    have hany := hwReg ka
    rw [List.any_eq_true] at hany ⊢
    obtain ⟨r, hr, hic⟩ := hany
    exact ⟨r, hr, icase_swap_trans b.toList tok.lexeme.toList r.toList kb
      (by rw [icase_eq_iff] at hic ⊢; exact hic.symm)⟩
  · -- lit / regPh
    have hany := hwReg kb
    rw [List.any_eq_true] at hany ⊢
    obtain ⟨r, hr, hic⟩ := hany
    exact ⟨r, hr, icase_swap_trans a.toList tok.lexeme.toList r.toList ka
      (by rw [icase_eq_iff] at hic ⊢; exact hic.symm)⟩
  · -- lit / lit
    exact icase_swap_trans a.toList tok.lexeme.toList b.toList ka kb


-- The rule vectors, as computed by lexing the 35 format strings.
def rulesLit : List (List String) := [
  ["CLS"], ["RET"], ["SYS", "a"], ["JP", "a"], ["CALL", "a"], ["SE", "v", ",", "b"],
  ["SNE", "v", ",", "b"], ["SE", "v", ",", "v"], ["LD", "v", ",", "b"], ["ADD", "v", ",", "b"],
  ["LD", "v", ",", "v"], ["OR", "v", ",", "v"], ["AND", "v", ",", "v"], ["XOR", "v", ",", "v"],
  ["ADD", "v", ",", "v"], ["SUB", "v", ",", "v"], ["SHR", "v"], ["SUBN", "v", ",", "v"],
  ["SHL", "v"], ["SNE", "v", ",", "v"], ["LD", "I", ",", "a"], ["JP", "V0", ",", "a"],
  ["RND", "v", ",", "b"], ["DRW", "v", ",", "v", ",", "n"], ["SKP", "v"], ["SKNP", "v"],
  ["LD", "v", ",", "DT"], ["LD", "v", ",", "K"], ["LD", "DT", ",", "v"], ["LD", "ST", ",", "v"],
  ["ADD", "I", ",", "v"], ["LD", "F", ",", "v"], ["LD", "B", ",", "v"],
  ["LD", "[", "I", "]", ",", "v"], ["LD", "v", ",", "[", "I", "]"]]

theorem RULES_eq : RULES = rulesLit := by decide

theorem rules_nonempty : ∀ i, i < 35 → 0 < (RULES.getD i []).length := by
  rw [RULES_eq]
  decide

-- No rule token lower-cases to something starting with a digit or sign,
-- so an Immediate token can never Exact-match a rule token.
theorem rule_toks_not_imm_start : ∀ k, k < 35 → ∀ p, p < (RULES.getD k []).length →
    immStartOk (((RULES.getD k []).getD p "").toList.map toLowerC) = false := by
  rw [RULES_eq]
  decide

-- The disambiguation table check: whenever two rules carry distinct
-- immediate placeholders at the same position, some earlier position
-- already separates them.
def tableChk : Bool :=
  (List.range 35).all fun i =>
    (List.range 35).all fun j =>
      (List.range ((rulesLit.getD i []).length)).all fun p =>
        ((!(decide (p < (rulesLit.getD j []).length))) ||
         (!(decide (classifyRT ((rulesLit.getD i []).getD p "") = RTokClass.immPh))) ||
         (!(decide (classifyRT ((rulesLit.getD j []).getD p "") = RTokClass.immPh))) ||
         (decide (((rulesLit.getD i []).getD p "") = ((rulesLit.getD j []).getD p ""))) ||
         ((List.range p).any fun q =>
            !canBoth ((rulesLit.getD i []).getD q "") ((rulesLit.getD j []).getD q "")))

theorem tableChk_true : tableChk = true := by decide

theorem table_separates : ∀ i, i < 35 → ∀ j, j < 35 →
    ∀ p, p < (RULES.getD i []).length → p < (RULES.getD j []).length →
    classifyRT ((RULES.getD i []).getD p "") = RTokClass.immPh →
    classifyRT ((RULES.getD j []).getD p "") = RTokClass.immPh →
    (RULES.getD i []).getD p "" ≠ (RULES.getD j []).getD p "" →
    ∃ q, q < p ∧
      canBoth ((RULES.getD i []).getD q "") ((RULES.getD j []).getD q "") = false := by
  intro i hi j hj p hpi hpj hci hcj hne
  rw [RULES_eq] at hpi hpj hci hcj hne ⊢
  have h := tableChk_true
  unfold tableChk at h
  rw [List.all_eq_true] at h
  have h := h i (List.mem_range.mpr hi)
  rw [List.all_eq_true] at h
  have h := h j (List.mem_range.mpr hj)
  rw [List.all_eq_true] at h
  have h := h p (List.mem_range.mpr hpi)
  simp only [Bool.or_eq_true, Bool.not_eq_true', decide_eq_false_iff_not,
    decide_eq_true_eq, List.any_eq_true, List.mem_range] at h
  rcases h with (((h | h) | h) | h) | h
  · exact absurd hpj h
  · exact absurd hci h
  · exact absurd hcj h
  · exact absurd h hne
  · exact h

theorem toLowerC_fix (c : Char) (h : (isDigitC c = true ∨ c = '+') ∨ c = '-') :
    toLowerC c = c := by
  unfold toLowerC
  rw [if_neg]
  rcases h with (h | h) | h
  · simp only [isDigitC, decide_eq_true_eq] at h
    omega
  · subst h
    decide
  · subst h
    decide

theorem exact_excluded (r : String) (tok : Token)
    (hT2 : immStartOk (r.toList.map toLowerC) = false)
    (hlex : immStartOk tok.lexeme.toList = true)
    (hic : icase_equals r.toList tok.lexeme.toList = true) : False := by
  rw [icase_eq_iff] at hic
  rw [hic] at hT2
  cases hl : tok.lexeme.toList with
  | nil =>
    rw [hl] at hlex
    exact absurd hlex (by decide)
  | cons c cs =>
    rw [hl] at hlex hT2
    simp only [immStartOk, List.map_cons] at hlex hT2
    rw [toLowerC_fix c (by simpa using hlex)] at hT2
    rw [hlex] at hT2
    exact absurd hT2 (by decide)

theorem matchOne_ne_multiple (r : String) (tok : Token) :
    matchOne r tok ≠ Matched.Multiple := by
  intro h
  simp only [matchOne] at h
  split_ifs at h <;> exact Matched.noConfusion h

-- On an Immediate token, a non-None match is exactly one of the roles
-- Address / Byte / Nibble, produced by the placeholders a / b / n.
theorem matchOne_imm_role (r : String) (tok : Token)
    (hk : tok.kind = TokenKind.Immediate)
    (hws : immStartOk tok.lexeme.toList = true)
    (hT2 : immStartOk (r.toList.map toLowerC) = false)
    (h : matchOne r tok ≠ Matched.None) :
    (matchOne r tok = Matched.Address ∧ r.length = 1 ∧ r.toList.getD 0 '\x00' = 'a') ∨
    (matchOne r tok = Matched.Byte ∧ r.length = 1 ∧ r.toList.getD 0 '\x00' = 'b') ∨
    (matchOne r tok = Matched.Nibble ∧ r.length = 1 ∧ r.toList.getD 0 '\x00' = 'n') := by
  unfold matchOne at h ⊢
  by_cases h1 : r.length = 1 ∧ r.toList.getD 0 '\x00' = 'v'
  · rw [if_pos h1] at h
    rw [if_neg (by rw [hk]; intro hh; cases hh)] at h
    exact absurd rfl h
  · rw [if_neg h1] at h ⊢
    by_cases h2 : r.length = 1 ∧ r.toList.getD 0 '\x00' = 'a'
    · rw [if_pos h2] at h ⊢
      rw [if_neg (by rw [hk]; intro hh; cases hh)] at h ⊢
      rw [if_pos hk] at h ⊢
      exact Or.inl ⟨rfl, h2⟩
    · rw [if_neg h2] at h ⊢
      by_cases h3 : r.length = 1 ∧ r.toList.getD 0 '\x00' = 'b'
      · rw [if_pos h3] at h ⊢
        rw [if_pos hk] at h ⊢
        exact Or.inr (Or.inl ⟨rfl, h3⟩)
      · rw [if_neg h3] at h ⊢
        by_cases h4 : r.length = 1 ∧ r.toList.getD 0 '\x00' = 'n'
        · rw [if_pos h4] at h ⊢
          rw [if_pos hk] at h ⊢
          exact Or.inr (Or.inr ⟨rfl, h4⟩)
        · rw [if_neg h4] at h
          by_cases h5 : icase_equals r.toList tok.lexeme.toList = true
          · exact absurd (exact_excluded r tok hT2 hws h5) (fun hh => hh)
          · rw [if_neg (by simpa using h5)] at h
            exact absurd rfl h

theorem classifyRT_immPh_of (s : String) (c : Char)
    (h1 : s.length = 1) (h2 : s.toList.getD 0 '\x00' = c)
    (h3 : c = 'a' ∨ c = 'b' ∨ c = 'n') :
    classifyRT s = RTokClass.immPh := by
  unfold classifyRT
  rw [if_neg, if_pos ⟨h1, by rw [h2]; exact h3⟩]
  rintro ⟨_, hv⟩
  rw [h2] at hv
  rcases h3 with h | h | h <;> rw [h] at hv <;> cases hv

theorem string_ne_of_head_ne (a b : String) (ca cb : Char)
    (ha : a.toList.getD 0 '\x00' = ca) (hb : b.toList.getD 0 '\x00' = cb)
    (hne : ca ≠ cb) : a ≠ b := by
  intro hh
  rw [hh] at ha
  rw [ha] at hb
  exact hne hb

theorem getD_set_false_true (l : List Bool) (i k : Nat)
    (h : (l.set i false).getD k false = true) : l.getD k false = true := by
  by_cases hik : i = k
  · subst hik
    by_cases hl : i < l.length
    · rw [getD_set_self _ _ _ _ hl] at h
      cases h
    · rw [getD_len_le (l.set i false) i false (by simp; omega)] at h
      cases h
  · rwa [getD_set_ne _ _ _ _ _ hik] at h


theorem getD_set_self_false (l : List Bool) (i : Nat) :
    (l.set i false).getD i false = false := by
  by_cases hl : i < l.length
  · exact getD_set_self l i false false hl
  · exact getD_len_le (l.set i false) i false (by simp; omega)

-- The merged result code of one loop iteration of try_next.
def mergeCode (code c : Matched) : Matched :=
  if code = Matched.None then c
  else if c ≠ Matched.None ∧ code ≠ c then Matched.Multiple
  else code

theorem mergeCode_none_left (c : Matched) : mergeCode Matched.None c = c := by
  simp [mergeCode]

theorem mergeCode_multiple (code c : Matched) (hcm : c ≠ Matched.Multiple)
    (hm : mergeCode code c = Matched.Multiple) :
    code = Matched.Multiple ∨
    (code ≠ Matched.None ∧ c ≠ Matched.None ∧ c ≠ code) := by
  unfold mergeCode at hm
  by_cases h1 : code = Matched.None
  · rw [if_pos h1] at hm
    exact absurd hm hcm
  · rw [if_neg h1] at hm
    by_cases h2 : c ≠ Matched.None ∧ code ≠ c
    · exact Or.inr ⟨h1, h2.1, fun he => h2.2 he.symm⟩
    · rw [if_neg h2] at hm
      exact Or.inl hm

theorem mergeCode_stay (code c : Matched) (h1 : code ≠ Matched.None)
    (h2 : ¬(c ≠ Matched.None ∧ code ≠ c)) : mergeCode code c = code := by
  unfold mergeCode
  rw [if_neg h1, if_neg h2]

-- One-step unfolding of the try_next loop body, with the let-bindings
-- substituted.
theorem tryNextAux_succ_eq (tok : Token) (n i : Nat) (m : RuleMatcher) (code : Matched) :
    tryNextAux tok (n + 1) i m code =
      (if m.matching.getD i false = false then tryNextAux tok n (i + 1) m code
      else
        if matchOne ((RULES.getD i []).getD m.match_count "") tok ≠ Matched.None ∧
            (if matchOne ((RULES.getD i []).getD m.match_count "") tok = Matched.None then
              { m with matching := m.matching.set i false } else m).match_count =
            (RULES.getD i []).length - 1 then
          ({ (if matchOne ((RULES.getD i []).getD m.match_count "") tok = Matched.None then
              { m with matching := m.matching.set i false } else m) with
            matched := some (tagOfIndex i) },
            if code = Matched.None then matchOne ((RULES.getD i []).getD m.match_count "") tok
            else if matchOne ((RULES.getD i []).getD m.match_count "") tok ≠ Matched.None ∧
                code ≠ matchOne ((RULES.getD i []).getD m.match_count "") tok then Matched.Multiple
            else code)
        else tryNextAux tok n (i + 1)
          (if matchOne ((RULES.getD i []).getD m.match_count "") tok = Matched.None then
            { m with matching := m.matching.set i false } else m)
          (if code = Matched.None then matchOne ((RULES.getD i []).getD m.match_count "") tok
            else if matchOne ((RULES.getD i []).getD m.match_count "") tok ≠ Matched.None ∧
                code ≠ matchOne ((RULES.getD i []).getD m.match_count "") tok then Matched.Multiple
            else code)) := rfl

-- One-step unfoldings of the try_next loop, by case on the current rule.
theorem tryNextAux_skip (tok : Token) (n i : Nat) (m : RuleMatcher) (code : Matched)
    (hb : m.matching.getD i false = false) :
    tryNextAux tok (n + 1) i m code = tryNextAux tok n (i + 1) m code := by
  rw [tryNextAux_succ_eq, if_pos hb]

theorem tryNextAux_clear (tok : Token) (n i : Nat) (m : RuleMatcher) (code : Matched)
    (hb : m.matching.getD i false = true)
    (hcn : matchOne ((RULES.getD i []).getD m.match_count "") tok = Matched.None) :
    tryNextAux tok (n + 1) i m code =
      tryNextAux tok n (i + 1) { m with matching := m.matching.set i false } code := by
  rw [tryNextAux_succ_eq, if_neg (by rw [hb]; decide), if_neg (fun hh => hh.1 hcn), if_pos hcn]
  by_cases hcode : code = Matched.None
  · rw [if_pos hcode, hcn, hcode]
  · rw [if_neg hcode, if_neg (fun hh => hh.1 hcn)]

theorem tryNextAux_brk (tok : Token) (n i : Nat) (m : RuleMatcher) (code : Matched)
    (hb : m.matching.getD i false = true)
    (hcn : matchOne ((RULES.getD i []).getD m.match_count "") tok ≠ Matched.None)
    (hbrk : m.match_count = (RULES.getD i []).length - 1) :
    tryNextAux tok (n + 1) i m code =
      ({ m with matched := some (tagOfIndex i) },
        mergeCode code (matchOne ((RULES.getD i []).getD m.match_count "") tok)) := by
  rw [tryNextAux_succ_eq, if_neg (by rw [hb]; decide), if_neg hcn]
  rw [if_pos ⟨hcn, hbrk⟩]
  rfl

theorem tryNextAux_cont (tok : Token) (n i : Nat) (m : RuleMatcher) (code : Matched)
    (hb : m.matching.getD i false = true)
    (hcn : matchOne ((RULES.getD i []).getD m.match_count "") tok ≠ Matched.None)
    (hbrk : m.match_count ≠ (RULES.getD i []).length - 1) :
    tryNextAux tok (n + 1) i m code =
      tryNextAux tok n (i + 1) m
        (mergeCode code (matchOne ((RULES.getD i []).getD m.match_count "") tok)) := by
  rw [tryNextAux_succ_eq, if_neg (by rw [hb]; decide), if_neg hcn,
    if_neg (fun hh => hbrk hh.2)]
  rfl

-- The loop never sets an alive-bit: bits only get cleared.
theorem tryNextAux_bits (tok : Token) : ∀ count i (m : RuleMatcher) code k,
    (tryNextAux tok count i m code).1.matching.getD k false = true →
    m.matching.getD k false = true := by
  intro count
  induction count with
  | zero => intro i m code k h; exact h
  | succ n ih =>
    intro i m code k h
    cases hb : m.matching.getD i false with
    | false =>
      rw [tryNextAux_skip tok n i m code hb] at h
      exact ih (i + 1) m code k h
    | true =>
      by_cases hcn : matchOne ((RULES.getD i []).getD m.match_count "") tok = Matched.None
      · rw [tryNextAux_clear tok n i m code hb hcn] at h
        exact getD_set_false_true m.matching i k (ih (i + 1) _ code k h)
      · by_cases hbrk : m.match_count = (RULES.getD i []).length - 1
        · rw [tryNextAux_brk tok n i m code hb hcn hbrk] at h
          exact h
        · rw [tryNextAux_cont tok n i m code hb hcn hbrk] at h
          exact ih (i + 1) m _ k h

-- The loop never changes match_count.
theorem tryNextAux_mc (tok : Token) : ∀ count i (m : RuleMatcher) code,
    (tryNextAux tok count i m code).1.match_count = m.match_count := by
  intro count
  induction count with
  | zero => intro i m code; rfl
  | succ n ih =>
    intro i m code
    cases hb : m.matching.getD i false with
    | false =>
      rw [tryNextAux_skip tok n i m code hb]
      exact ih (i + 1) m code
    | true =>
      by_cases hcn : matchOne ((RULES.getD i []).getD m.match_count "") tok = Matched.None
      · rw [tryNextAux_clear tok n i m code hb hcn]
        exact ih (i + 1) _ code
      · by_cases hbrk : m.match_count = (RULES.getD i []).length - 1
        · rw [tryNextAux_brk tok n i m code hb hcn hbrk]
        · rw [tryNextAux_cont tok n i m code hb hcn hbrk]
          exact ih (i + 1) m _

-- If the loop completes without the break, every rule still alive at the
-- end was alive before, matched the token non-None, and was not on its
-- last rule token.
theorem tryNextAux_nobrk (tok : Token) : ∀ count i (m : RuleMatcher) code,
    (tryNextAux tok count i m code).1.matched = none →
    ∀ k, i ≤ k → k < i + count →
      (tryNextAux tok count i m code).1.matching.getD k false = true →
      (m.matching.getD k false = true ∧
        matchOne ((RULES.getD k []).getD m.match_count "") tok ≠ Matched.None ∧
        m.match_count ≠ (RULES.getD k []).length - 1) := by
  intro count
  induction count with
  | zero => intro i m code _ k hk1 hk2 _; exact absurd hk2 (by omega)
  | succ n ih =>
    intro i m code h k hk1 hk2 hbit
    cases hb : m.matching.getD i false with
    | false =>
      rw [tryNextAux_skip tok n i m code hb] at h hbit
      by_cases hki : k = i
      · have hup := tryNextAux_bits tok n (i + 1) m code k hbit
        rw [hki, hb] at hup
        exact absurd hup (by decide)
      · exact ih (i + 1) m code h k (by omega) (by omega) hbit
    | true =>
      by_cases hcn : matchOne ((RULES.getD i []).getD m.match_count "") tok = Matched.None
      · rw [tryNextAux_clear tok n i m code hb hcn] at h hbit
        by_cases hki : k = i
        · have hup := tryNextAux_bits tok n (i + 1) _ code k hbit
          rw [hki] at hup
          have hup' : (m.matching.set i false).getD i false = true := hup
          rw [getD_set_self_false m.matching i] at hup'
          exact absurd hup' (by decide)
        · obtain ⟨hb', hmo, hnl⟩ := ih (i + 1) _ code h k (by omega) (by omega) hbit
          have hmo' : matchOne ((RULES.getD k []).getD m.match_count "") tok ≠ Matched.None := hmo
          have hnl' : m.match_count ≠ (RULES.getD k []).length - 1 := hnl
          have hb'' : (m.matching.set i false).getD k false = true := hb'
          rw [getD_set_ne m.matching i k false false (by omega)] at hb''
          exact ⟨hb'', hmo', hnl'⟩
      · by_cases hbrk : m.match_count = (RULES.getD i []).length - 1
        · rw [tryNextAux_brk tok n i m code hb hcn hbrk] at h
          simp at h
        · rw [tryNextAux_cont tok n i m code hb hcn hbrk] at h hbit
          by_cases hki : k = i
          · rw [hki]
            exact ⟨hb, hcn, hbrk⟩
          · exact ih (i + 1) m _ h k (by omega) (by omega) hbit

-- Provenance of a Multiple result: either it was already the running
-- code, or the running code conflicts with one alive rule, or two alive
-- rules produced distinct non-None matches.
theorem tryNextAux_mult (tok : Token) : ∀ count i (m : RuleMatcher) code,
    (tryNextAux tok count i m code).2 = Matched.Multiple →
    code = Matched.Multiple ∨
    (code ≠ Matched.None ∧ ∃ k, i ≤ k ∧ k < i + count ∧
      m.matching.getD k false = true ∧
      matchOne ((RULES.getD k []).getD m.match_count "") tok ≠ Matched.None ∧
      matchOne ((RULES.getD k []).getD m.match_count "") tok ≠ code) ∨
    (∃ k1 k2, i ≤ k1 ∧ k1 < k2 ∧ k2 < i + count ∧
      m.matching.getD k1 false = true ∧ m.matching.getD k2 false = true ∧
      matchOne ((RULES.getD k1 []).getD m.match_count "") tok ≠ Matched.None ∧
      matchOne ((RULES.getD k2 []).getD m.match_count "") tok ≠ Matched.None ∧
      matchOne ((RULES.getD k1 []).getD m.match_count "") tok ≠
        matchOne ((RULES.getD k2 []).getD m.match_count "") tok) := by
  intro count
  induction count with
  | zero => intro i m code h; exact Or.inl h
  | succ n ih =>
    intro i m code h
    cases hb : m.matching.getD i false with
    | false =>
      rw [tryNextAux_skip tok n i m code hb] at h
      rcases ih (i + 1) m code h with h1 | ⟨hc, k, hk1, hk2, hrest⟩ |
        ⟨k1, k2, hk1, hk12, hk2, hrest⟩
      · exact Or.inl h1
      · exact Or.inr (Or.inl ⟨hc, k, by omega, by omega, hrest⟩)
      · exact Or.inr (Or.inr ⟨k1, k2, by omega, hk12, by omega, hrest⟩)
    | true =>
      by_cases hcn : matchOne ((RULES.getD i []).getD m.match_count "") tok = Matched.None
      · rw [tryNextAux_clear tok n i m code hb hcn] at h
        rcases ih (i + 1) _ code h with h1 | ⟨hc, k, hk1, hk2, hbk, hmo, hne⟩ |
          ⟨k1, k2, hk1, hk12, hk2, hbk1, hbk2, hmo1, hmo2, hne⟩
        · exact Or.inl h1
        · have hmo' : matchOne ((RULES.getD k []).getD m.match_count "") tok ≠ Matched.None := hmo
          have hne' : matchOne ((RULES.getD k []).getD m.match_count "") tok ≠ code := hne
          have hbk' : (m.matching.set i false).getD k false = true := hbk
          rw [getD_set_ne m.matching i k false false (by omega)] at hbk'
          exact Or.inr (Or.inl ⟨hc, k, by omega, by omega, hbk', hmo', hne'⟩)
        · have hmo1' : matchOne ((RULES.getD k1 []).getD m.match_count "") tok ≠ Matched.None := hmo1
          have hmo2' : matchOne ((RULES.getD k2 []).getD m.match_count "") tok ≠ Matched.None := hmo2
          have hne' : matchOne ((RULES.getD k1 []).getD m.match_count "") tok ≠
              matchOne ((RULES.getD k2 []).getD m.match_count "") tok := hne
          have hbk1' : (m.matching.set i false).getD k1 false = true := hbk1
          have hbk2' : (m.matching.set i false).getD k2 false = true := hbk2
          rw [getD_set_ne m.matching i k1 false false (by omega)] at hbk1'
          rw [getD_set_ne m.matching i k2 false false (by omega)] at hbk2'
          exact Or.inr (Or.inr ⟨k1, k2, by omega, hk12, by omega, hbk1', hbk2',
            hmo1', hmo2', hne'⟩)
      · by_cases hbrk : m.match_count = (RULES.getD i []).length - 1
        · rw [tryNextAux_brk tok n i m code hb hcn hbrk] at h
          have h' : mergeCode code (matchOne ((RULES.getD i []).getD m.match_count "") tok) =
              Matched.Multiple := h
          rcases mergeCode_multiple code _ (matchOne_ne_multiple _ tok) h' with h1 | ⟨hc1, hc2, hc3⟩
          · exact Or.inl h1
          · exact Or.inr (Or.inl ⟨hc1, i, le_refl i, by omega, hb, hc2, hc3⟩)
        · rw [tryNextAux_cont tok n i m code hb hcn hbrk] at h
          rcases ih (i + 1) m _ h with h1 | ⟨hc, k, hk1, hk2, hbk, hmo, hne⟩ |
            ⟨k1, k2, hk1, hk12, hk2, hrest⟩
          · rcases mergeCode_multiple code _ (matchOne_ne_multiple _ tok) h1 with h2 | ⟨hc1, hc2, hc3⟩
            · exact Or.inl h2
            · exact Or.inr (Or.inl ⟨hc1, i, le_refl i, by omega, hb, hc2, hc3⟩)
          · by_cases hcode : code = Matched.None
            · rw [hcode, mergeCode_none_left] at hne hc
              exact Or.inr (Or.inr ⟨i, k, le_refl i, by omega, by omega, hb, hbk,
                hcn, hmo, fun he => hne he.symm⟩)
            · by_cases hcc : matchOne ((RULES.getD i []).getD m.match_count "") tok ≠ Matched.None ∧
                  code ≠ matchOne ((RULES.getD i []).getD m.match_count "") tok
              · exact Or.inr (Or.inl ⟨hcode, i, le_refl i, by omega, hb, hcc.1,
                  fun he => hcc.2 he.symm⟩)
              · rw [mergeCode_stay code _ hcode hcc] at hne
                exact Or.inr (Or.inl ⟨hcode, k, by omega, by omega, hbk, hmo, hne⟩)
          · exact Or.inr (Or.inr ⟨k1, k2, by omega, hk12, by omega, hrest⟩)

-- The matcher invariant: while no rule has completed, every alive rule
-- still has a rule token left, and any two alive rules are pairwise
-- compatible (canBoth) on all positions already consumed.
def AliveOk (m : RuleMatcher) : Prop :=
  m.matched = none →
    ∀ i, i < 35 → m.matching.getD i false = true →
      m.match_count < (RULES.getD i []).length ∧
      ∀ j, j < 35 → m.matching.getD j false = true →
        ∀ q, q < m.match_count →
          canBoth ((RULES.getD i []).getD q "") ((RULES.getD j []).getD q "") = true

theorem alive_start : AliveOk startNewMatch := by
  intro _ i hi _
  refine ⟨rules_nonempty i hi, ?_⟩
  intro j _ _ q hq
  have hq0 : q < 0 := hq
  exact absurd hq0 (by omega)

theorem tryNext_alive (m : RuleMatcher) (tok : Token) (hw : wfTok tok)
    (hA : AliveOk m) : AliveOk (tryNext m tok).2 := by
  by_cases hm : m.matched.isSome
  · have hsame : (tryNext m tok).2 = m := by
      unfold tryNext
      rw [if_pos hm]
    rw [hsame]
    exact hA
  · have hmn : m.matched = none := by
      cases hmm : m.matched
      · rfl
      · rw [hmm] at hm
        exact absurd rfl hm
    have h2 : (tryNext m tok).2 =
        (if (tryNextAux tok 35 0 m Matched.None).2 ≠ Matched.None then
          { (tryNextAux tok 35 0 m Matched.None).1 with
              match_count := (tryNextAux tok 35 0 m Matched.None).1.match_count + 1 }
        else (tryNextAux tok 35 0 m Matched.None).1) := by
      unfold tryNext
      rw [if_neg hm]
    rw [h2]
    by_cases hres : (tryNextAux tok 35 0 m Matched.None).1.matched = none
    · have hNB := tryNextAux_nobrk tok 35 0 m Matched.None hres
      have hmc := tryNextAux_mc tok 35 0 m Matched.None
      by_cases hr2 : (tryNextAux tok 35 0 m Matched.None).2 = Matched.None
      · rw [if_neg (fun hh => hh hr2)]
        intro _ i hi hbiti
        obtain ⟨hbm, _, _⟩ := hNB i (Nat.zero_le i) (by omega) hbiti
        obtain ⟨hlen, hpair⟩ := hA hmn i hi hbm
        refine ⟨?_, ?_⟩
        · rw [hmc]
          exact hlen
        · intro j hj hbitj q hq
          obtain ⟨hbmj, _, _⟩ := hNB j (Nat.zero_le j) (by omega) hbitj
          rw [hmc] at hq
          exact hpair j hj hbmj q hq
      · rw [if_pos hr2]
        intro _ i hi hbiti
        have hbiti' : (tryNextAux tok 35 0 m Matched.None).1.matching.getD i false = true := hbiti
        obtain ⟨hbm, hmo, hnl⟩ := hNB i (Nat.zero_le i) (by omega) hbiti'
        obtain ⟨hlen, hpair⟩ := hA hmn i hi hbm
        have hmc1 : ({ (tryNextAux tok 35 0 m Matched.None).1 with
            match_count := (tryNextAux tok 35 0 m Matched.None).1.match_count + 1 }).match_count =
            m.match_count + 1 := by
          rw [hmc]
        refine ⟨?_, ?_⟩
        · rw [hmc1]
          omega
        · intro j hj hbitj q hq
          have hbitj' : (tryNextAux tok 35 0 m Matched.None).1.matching.getD j false = true := hbitj
          obtain ⟨hbmj, hmoj, _⟩ := hNB j (Nat.zero_le j) (by omega) hbitj'
          rw [hmc1] at hq
          by_cases hqlt : q < m.match_count
          · exact hpair j hj hbmj q hqlt
          · have hqe : q = m.match_count := by omega
            rw [hqe]
            exact canBoth_sound _ _ tok hw hmo hmoj
    · intro hmn2
      have hsame : (if (tryNextAux tok 35 0 m Matched.None).2 ≠ Matched.None then
          { (tryNextAux tok 35 0 m Matched.None).1 with
              match_count := (tryNextAux tok 35 0 m Matched.None).1.match_count + 1 }
        else (tryNextAux tok 35 0 m Matched.None).1).matched =
          (tryNextAux tok 35 0 m Matched.None).1.matched := by
        by_cases hh : (tryNextAux tok 35 0 m Matched.None).2 ≠ Matched.None
        · rw [if_pos hh]
        · rw [if_neg hh]
      rw [hsame] at hmn2
      exact absurd hmn2 hres

-- Feeding a token list through try_next, as parse_instruction does.
def feedTokens (m : RuleMatcher) (toks : List Token) : RuleMatcher :=
  toks.foldl (fun acc t => (tryNext acc t).2) m

theorem feed_alive (toks : List Token) : ∀ (m : RuleMatcher),
    AliveOk m → (∀ t ∈ toks, wfTok t) → AliveOk (feedTokens m toks) := by
  induction toks with
  | nil => intro m hA _; exact hA
  | cons t ts ih =>
    intro m hA hall
    have h1 : feedTokens m (t :: ts) = feedTokens (tryNext m t).2 ts := rfl
    rw [h1]
    exact ih _ (tryNext_alive m t (hall t (by simp)) hA) (fun u hu => hall u (by simp [hu]))

-- Two alive rules cannot both put an immediate placeholder at the current
-- position with different placeholder letters: the table check separates
-- them earlier, contradicting pairwise compatibility.
theorem conflict_impossible (m : RuleMatcher) (k1 k2 : Nat) (hk1 : k1 < 35) (hk2 : k2 < 35)
    (hlen1 : m.match_count < (RULES.getD k1 []).length)
    (hlen2 : m.match_count < (RULES.getD k2 []).length)
    (hpair : ∀ q, q < m.match_count →
      canBoth ((RULES.getD k1 []).getD q "") ((RULES.getD k2 []).getD q "") = true)
    (c1 c2 : Char)
    (h1l : ((RULES.getD k1 []).getD m.match_count "").length = 1)
    (h1h : ((RULES.getD k1 []).getD m.match_count "").toList.getD 0 '\x00' = c1)
    (h2l : ((RULES.getD k2 []).getD m.match_count "").length = 1)
    (h2h : ((RULES.getD k2 []).getD m.match_count "").toList.getD 0 '\x00' = c2)
    (hc1 : c1 = 'a' ∨ c1 = 'b' ∨ c1 = 'n')
    (hc2 : c2 = 'a' ∨ c2 = 'b' ∨ c2 = 'n')
    (hcc : c1 ≠ c2) : False := by
  have hcl1 := classifyRT_immPh_of _ c1 h1l h1h hc1
  have hcl2 := classifyRT_immPh_of _ c2 h2l h2h hc2
  have hne := string_ne_of_head_ne _ _ c1 c2 h1h h2h hcc
  obtain ⟨q, hq, hfalse⟩ :=
    table_separates k1 hk1 k2 hk2 m.match_count hlen1 hlen2 hcl1 hcl2 hne
  have htrue := hpair q hq
  rw [hfalse] at htrue
  exact absurd htrue (by decide)

/-- C9: feeding any sequence of lexer-shaped tokens through
RuleMatcher::try_next after start_new_match, a token of kind Immediate
never yields Matched::Multiple: at most one of the roles Address, Byte,
Nibble survives across the still-alive rules of the 35-entry format
table, so the ambiguous-immediate assertion branch in parse_instruction
is unreachable. -/
theorem immediate_token_never_multiple (toks : List Token)
    (hall : ∀ t ∈ toks, wfTok t) (tok : Token) (hw : wfTok tok)
    (hk : tok.kind = TokenKind.Immediate) :
    (tryNext (feedTokens startNewMatch toks) tok).1 ≠ Matched.Multiple := by
  intro hMul
  have hA : AliveOk (feedTokens startNewMatch toks) :=
    feed_alive toks startNewMatch alive_start hall
  by_cases hsome : (feedTokens startNewMatch toks).matched.isSome
  · have hnone : (tryNext (feedTokens startNewMatch toks) tok).1 = Matched.None := by
      unfold tryNext
      rw [if_pos hsome]
    rw [hnone] at hMul
    exact Matched.noConfusion hMul
  · have hmn : (feedTokens startNewMatch toks).matched = none := by
      cases hmm : (feedTokens startNewMatch toks).matched
      · rfl
      · rw [hmm] at hsome
        exact absurd rfl hsome
    have h1 : (tryNext (feedTokens startNewMatch toks) tok).1 =
        (tryNextAux tok 35 0 (feedTokens startNewMatch toks) Matched.None).2 := by
      unfold tryNext
      rw [if_neg hsome]
    rw [h1] at hMul
    rcases tryNextAux_mult tok 35 0 (feedTokens startNewMatch toks) Matched.None hMul with
      h2 | ⟨h2, _⟩ | h2
    · exact Matched.noConfusion h2
    · exact h2 rfl
    · obtain ⟨k1, k2, hk1, hk12, hk2, hb1, hb2, hmo1, hmo2, hne⟩ := h2
      obtain ⟨hlen1, hpair⟩ := hA hmn k1 (by omega) hb1
      obtain ⟨hlen2, _⟩ := hA hmn k2 (by omega) hb2
      have hws := hw.1 hk
      have hT1 := rule_toks_not_imm_start k1 (by omega)
        (feedTokens startNewMatch toks).match_count hlen1
      have hT2 := rule_toks_not_imm_start k2 (by omega)
        (feedTokens startNewMatch toks).match_count hlen2
      rcases matchOne_imm_role _ tok hk hws hT1 hmo1 with
          ⟨hm1, hl1, hh1⟩ | ⟨hm1, hl1, hh1⟩ | ⟨hm1, hl1, hh1⟩ <;>
        rcases matchOne_imm_role _ tok hk hws hT2 hmo2 with
          ⟨hm2, hl2, hh2⟩ | ⟨hm2, hl2, hh2⟩ | ⟨hm2, hl2, hh2⟩ <;>
        first
          | exact hne (hm1.trans hm2.symm)
          | exact conflict_impossible (feedTokens startNewMatch toks) k1 k2
              (by omega) (by omega) hlen1 hlen2 (hpair k2 (by omega) hb2)
              _ _ hl1 hh1 hl2 hh2 (by decide) (by decide) (by decide)

def c9Tok : Token :=
  { lexeme := "57", kind := TokenKind.Immediate, pos := ⟨1, 1⟩, value := 57, origin := none }

theorem immediate_token_never_multiple_witness :
    (∀ t ∈ ([] : List Token), wfTok t) ∧ wfTok c9Tok ∧
    c9Tok.kind = TokenKind.Immediate ∧
    (tryNext (feedTokens startNewMatch []) c9Tok).1 ≠ Matched.Multiple := by
  refine ⟨by simp, ⟨fun _ => by decide, fun hh => by cases hh⟩, rfl, ?_⟩
  exact immediate_token_never_multiple [] (by simp) c9Tok
    ⟨fun _ => by decide, fun hh => by cases hh⟩ rfl


-- ======================================================================
-- Claim C5: what triggers macro expansion in Parser::advance.
-- ======================================================================

-- ActiveMacro from src/assembler/parser.hxx: the macro being expanded,
-- the position of the expansion site, and a sub-lexer over the
-- substitution text.
structure ActiveM where
  mname : String
  expandPos : Position
  lx : Lexer
deriving DecidableEq, Repr

-- The parser state that Parser::advance reads and writes: the main
-- lexer, previous/current tokens, the optional active macro, and the
-- macro table (name, substitution text).
structure PState where
  lex : Lexer
  previous : Token
  current : Token
  active : Option ActiveM
  macros : List (String × String)
deriving DecidableEq, Repr

-- macros.find(current.lexeme): exact (case-sensitive) key lookup.
def findMacro (tbl : List (String × String)) (lexeme : String) : Option (String × String) :=
  tbl.find? (fun p => p.1 == lexeme)

-- The for(;;) loop of Parser::advance (src/assembler/parser.cxx:279-303),
-- with fuel for the finitely many macro-chain steps.
def advanceLoop : Nat → PState → PState
  | 0, s => s
  | fuel + 1, s =>
    match s.active with
    | some am =>
      let r := lexNext am.lx
      let tok := { r.1 with origin := some am.mname, pos := am.expandPos }
      if tok.kind ≠ TokenKind.Eof then
        { s with current := tok, active := some { am with lx := r.2 } }
      else
        advanceLoop fuel { s with current := tok, active := none }
    | none =>
      let r := lexNext s.lex
      match findMacro s.macros r.1.lexeme with
      | none => { s with current := r.1, lex := r.2 }
      | some m =>
        advanceLoop fuel
          { s with
            current := r.1
            lex := r.2
            active := some { mname := m.1, expandPos := r.1.pos, lx := lexerInit m.2 } }

-- Parser::advance: save previous, then run the loop.
def advanceP (fuel : Nat) (s : PState) : PState :=
  advanceLoop fuel { s with previous := s.current }

-- A parser state with a macro named V1 (parse_define coerces any
-- alphabetic lexeme to Identifier, so such a macro is definable) and a
-- source whose next token is the Register-kind token V1.
def c5State : PState :=
  { lex := lexerInit "V1 7\n", previous := mkToken TokenKind.Eof,
    current := mkToken TokenKind.Eof, active := none,
    macros := [("V1", "6")] }

-- A Register-kind token does trigger macro expansion: after advance the
-- current token is the Immediate 6 produced from the substitution text,
-- tagged with the macro origin.
theorem macro_lookup_ignores_kind_cex :
    (lexNext c5State.lex).1.kind = TokenKind.Register ∧
    (lexNext c5State.lex).1.lexeme = "V1" ∧
    (advanceP 3 c5State).current.kind = TokenKind.Immediate ∧
    (advanceP 3 c5State).current.value = 6 ∧
    (advanceP 3 c5State).current.origin = some "V1" := by
  refine ⟨?_, ?_, ?_, ?_, ?_⟩ <;> decide

/-- C5 (amended): in Parser::advance, switching into active-macro mode is
keyed on the token lexeme alone — when no macro is active, the freshly
lexed token triggers expansion exactly when its lexeme is in the macro
table, for every token kind (so Register/Instruction tokens with a macro
name lexeme do expand, contrary to the original claim) — while a token
produced inside an active macro is never looked up: a non-Eof token from
the substitution lexer becomes current (tagged with the macro origin)
independently of the macro table. -/
theorem macro_trigger_lexeme_keyed (fuel : Nat) (s : PState) (hact : s.active = none) :
    (findMacro s.macros (lexNext s.lex).1.lexeme = none →
      advanceLoop (fuel + 1) s =
        { s with current := (lexNext s.lex).1, lex := (lexNext s.lex).2 }) ∧
    (∀ nm sub, findMacro s.macros (lexNext s.lex).1.lexeme = some (nm, sub) →
      advanceLoop (fuel + 1) s =
        advanceLoop fuel
          { s with
            current := (lexNext s.lex).1
            lex := (lexNext s.lex).2
            active := some { mname := nm, expandPos := (lexNext s.lex).1.pos,
                             lx := lexerInit sub } }) ∧
    (∀ (s2 : PState) (am : ActiveM) (tbl : List (String × String)),
      s2.active = some am →
      (lexNext am.lx).1.kind ≠ TokenKind.Eof →
      (advanceLoop (fuel + 1) s2).current =
        { (lexNext am.lx).1 with origin := some am.mname, pos := am.expandPos } ∧
      (advanceLoop (fuel + 1) { s2 with macros := tbl }).current =
        { (lexNext am.lx).1 with origin := some am.mname, pos := am.expandPos }) := by
  refine ⟨?_, ?_, ?_⟩
  · intro hf
    simp [advanceLoop, hact, hf]
  · intro nm sub hf
    simp [advanceLoop, hact, hf]
  · intro s2 am tbl h2 hk
    constructor <;> simp [advanceLoop, h2, hk]

theorem macro_trigger_lexeme_keyed_witness :
    c5State.active = none ∧
    advanceLoop 3 c5State =
      advanceLoop 2
        { c5State with
          current := (lexNext c5State.lex).1
          lex := (lexNext c5State.lex).2
          active := some { mname := "V1", expandPos := (lexNext c5State.lex).1.pos,
                           lx := lexerInit "6" } } := by
  refine ⟨rfl, ?_⟩
  exact (macro_trigger_lexeme_keyed 2 c5State rfl).2.1 "V1" "6" (by decide)


-- ======================================================================
-- Claim C8: termination of Parser::recover / parse_and_assemble.
-- ======================================================================

-- The no-macro step of the advance loop: a fresh token whose lexeme is
-- not a macro name just becomes the current token.
theorem advanceLoop_nofind (fuel : Nat) (s : PState) (hact : s.active = none)
    (hf : findMacro s.macros (lexNext s.lex).1.lexeme = none) :
    advanceLoop (fuel + 1) s =
      { s with current := (lexNext s.lex).1, lex := (lexNext s.lex).2 } := by
  simp [advanceLoop, hact, hf]

-- Parser::recover (src/assembler/parser.cxx:332-340): loop until
-- match_advance(Char, newline) succeeds; `fuel` bounds the iterations
-- (none = the loop did not finish within fuel), advFuel feeds advance.
def recoverF (advFuel : Nat) : Nat → PState → Option PState
  | 0, _ => none
  | fuel + 1, s =>
    if s.current.kind = TokenKind.Char ∧ s.current.value = 10 then
      some (advanceP advFuel s)
    else recoverF advFuel fuel (advanceP advFuel s)

theorem recoverF_succ (advFuel f : Nat) (s : PState) :
    recoverF advFuel (f + 1) s =
      if s.current.kind = TokenKind.Char ∧ s.current.value = 10 then
        some (advanceP advFuel s)
      else recoverF advFuel f (advanceP advFuel s) := rfl

-- The parser state after lexing past the end of the newline-less source
-- X: current is Eof and the lexer is at end of input.
def c8Lex : Lexer := (lexNext (lexNext (lexerInit "X")).2).2

def c8Stuck : PState :=
  { lex := (lexNext c8Lex).2, previous := (lexNext c8Lex).1,
    current := (lexNext c8Lex).1, active := none, macros := [] }

-- At end of input, advance is a fixpoint: the lexer keeps producing the
-- same Eof token.
theorem advanceP_stuck (f : Nat) : advanceP f c8Stuck = c8Stuck := by
  cases f with
  | zero => decide
  | succ n =>
    have h : advanceP (n + 1) c8Stuck =
        advanceLoop (n + 1) { c8Stuck with previous := c8Stuck.current } := rfl
    rw [h, advanceLoop_nofind n { c8Stuck with previous := c8Stuck.current } rfl (by decide)]
    decide

-- recover never exits on a source without a trailing newline: with the
-- lexer at end of input it spins on Eof tokens forever (the CLI driver
-- masks this by appending a newline to the source text).
theorem recover_nonterminating_cex :
    c8Stuck.current.kind = TokenKind.Eof ∧
    ∀ fuel advFuel, recoverF advFuel fuel c8Stuck = none := by
  refine ⟨rfl, ?_⟩
  intro fuel
  induction fuel with
  | zero => intro advFuel; rfl
  | succ f ih =>
    intro advFuel
    rw [recoverF_succ, if_neg (by decide), advanceP_stuck advFuel]
    exact ih advFuel

-- n-fold iteration of advance, as the recover loop performs it.
def iterAdv (advFuel : Nat) : Nat → PState → PState
  | 0, s => s
  | n + 1, s => iterAdv advFuel n (advanceP advFuel s)

/-- C8 (amended): error recovery terminates exactly when a newline lies
ahead: if some iterate of advance reaches a Char token with value 10
within the fuel bound, Parser::recover finishes (consuming tokens up to
and including that newline); on a source without a trailing newline the
loop never exits after the last token, and parse_and_assemble only
terminates because the CLI driver appends a newline to the source
text. -/
theorem recover_terminates (advFuel : Nat) : ∀ (fuel : Nat) (s : PState),
    (∃ n, n < fuel ∧ (iterAdv advFuel n s).current.kind = TokenKind.Char ∧
      (iterAdv advFuel n s).current.value = 10) →
    recoverF advFuel fuel s ≠ none := by
  intro fuel
  induction fuel with
  | zero =>
    intro s h
    obtain ⟨n, hn, _⟩ := h
    exact absurd hn (by omega)
  | succ f ih =>
    intro s h
    by_cases hc : s.current.kind = TokenKind.Char ∧ s.current.value = 10
    · rw [recoverF_succ, if_pos hc]
      exact fun hh => Option.noConfusion hh
    · obtain ⟨n, hn, hkind, hval⟩ := h
      cases n with
      | zero => exact absurd ⟨hkind, hval⟩ hc
      | succ k =>
        rw [recoverF_succ, if_neg hc]
        exact ih (advanceP advFuel s) ⟨k, by omega, hkind, hval⟩

-- A state whose current token is the newline Char.
def c8NL : PState :=
  { lex := (lexNext (lexerInit "\n")).2, previous := (lexNext (lexerInit "\n")).1,
    current := (lexNext (lexerInit "\n")).1, active := none, macros := [] }

theorem recover_terminates_witness :
    (∃ n, n < 1 ∧ (iterAdv 1 n c8NL).current.kind = TokenKind.Char ∧
      (iterAdv 1 n c8NL).current.value = 10) ∧
    recoverF 1 1 c8NL ≠ none := by
  constructor
  · exact ⟨0, by omega, by decide, by decide⟩
  · exact recover_terminates 1 1 c8NL ⟨0, by omega, by decide, by decide⟩

end Chip8
